import Mathlib

/-!
Verification development for the AI-companion backend.

This file gives a shallow embedding, in Lean 4, of the core logic of the
repository — the input normalizer (`src/utils/normalizeInput.js`), the decision
response parser (`src/services/ai/responseParser.js`), the confidence scorer
(`src/utils/confidenceScore.js`), the priority service
(`src/services/task/priorityService.js`), the in-memory session model and its
controller (`src/models/session.model.js`, `src/controllers/session.controller.js`),
and the phase-governed conversation engine (the session service in
`src/services/task/taskService.js` together with `phasePrompts.js`) — and proves
properties of that embedding.

Modelling conventions:
- JavaScript strings are Lean `String`s; character-level operations work on
  `String.data` (`List Char`).  JavaScript's Unicode-aware `\s`, `\w`,
  `toLowerCase` are modelled on the character sets that actually occur in the
  repository's patterns and data (ASCII plus the specific Unicode punctuation
  the code mentions); this is noted at each definition.
- JavaScript numbers are modelled as exact rationals (`ℚ`).  Arithmetic is
  written with kernel-reducible wrappers (`qadd`, `qmul`, …, defined via
  `mkRat`) so that concrete runs can be checked by `decide`; bridge lemmas
  relate them to Mathlib's field operations.
- Fallible code returns `Except`/`Option`; the LLM client is an oracle
  function passed in explicitly.
- `Date`/`randomUUID` fields (timestamps, ids) carry no logic in the claims
  under study and are elided from the session records.
-/

set_option maxRecDepth 20000

namespace AICompanion

/-! ### JavaScript-style string primitives -/

/-- The apostrophe character (U+0027). -/
def apos : Char := Char.ofNat 39

/-- Characters matched by JavaScript's `\s` (and trimmed by `String.trim`),
restricted to the code points that can appear in this repository's data:
ASCII whitespace, NBSP, the Unicode line separators and the BOM. -/
def jsWhitespaceChar (c : Char) : Bool :=
  c = ' ' || c = '\t' || c = '\n' || c = '\r' || c = '\x0b' || c = '\x0c' ||
  c = ' ' || c = ' ' || c = ' ' || c = '﻿'

/-- JavaScript line terminators (what `$` in a multiline regex anchors before,
and what `^` anchors after). -/
def jsLineTerm (c : Char) : Bool :=
  c = '\n' || c = '\r' || c = ' ' || c = ' '

/-- JavaScript `\w`: `[A-Za-z0-9_]`. -/
def jsWordChar (c : Char) : Bool :=
  (c.isAlpha || c.isDigit || c = '_')

def jsTrimList (cs : List Char) : List Char :=
  ((cs.dropWhile jsWhitespaceChar).reverse.dropWhile jsWhitespaceChar).reverse

/-- `String.prototype.trim`. -/
def jsTrim (s : String) : String := String.mk (jsTrimList s.data)

/-- `String.prototype.toLowerCase`, on the ASCII range (all the patterns in the
repository are ASCII). -/
def jsLower (s : String) : String := String.mk (s.data.map Char.toLower)

/-- `String.prototype.includes`. -/
def jsIncludes (hay needle : String) : Bool := decide (needle.data <:+: hay.data)

/-- `String.prototype.startsWith`. -/
def jsStartsWith (s pre : String) : Bool := decide (pre.data <+: s.data)

/-- `String.prototype.endsWith`. -/
def jsEndsWith (s suf : String) : Bool := decide (suf.data <:+ s.data)

/-- Worker for `jsSplitWs`: `inRun` records whether we are inside a whitespace
run (one separator per maximal run), `revFields` the completed fields in
reverse, `cur` the current field in reverse. -/
def splitWsGo (inRun : Bool) (revFields : List (List Char)) (cur : List Char) :
    List Char → List (List Char)
  | [] => (cur.reverse :: revFields).reverse
  | c :: cs =>
    if jsWhitespaceChar c then
      if inRun then splitWsGo true revFields cur cs
      else splitWsGo true (cur.reverse :: revFields) [] cs
    else splitWsGo false revFields (c :: cur) cs

/-- `str.split(/\s+/)`: fields between maximal whitespace runs, keeping the
empty leading/trailing fields JavaScript produces when the string starts or
ends with whitespace (`"".split` gives `[""]`). -/
def jsSplitWs (s : String) : List String :=
  (splitWsGo false [] [] s.data).map String.mk

/-! ### Decision response parser (`src/services/ai/responseParser.js`)

`parseDecisionResponse` first runs `JSON.parse` (external) and then validates
the parsed value.  The embedding starts from the parsed value.  Any value that
passes `validateDecisionStructure` has a truthy string `decision` and
`reasoning` and an array of tasks each with a truthy string `title` and a
numeric `priority`, so the embedding's input domain `ParsedReply` (strings plus
a list of title/priority pairs) covers every value the parser can accept;
values of other JSON shapes are rejected by the same checks and are outside
the claims under study. -/

/-- A task as it appears in the parsed LLM JSON: `title` a string, `priority`
a JavaScript number (exact rational). -/
structure RawTask where
  title : String
  priority : ℚ
deriving DecidableEq, Repr

/-- A task after normalization: integer priority. -/
structure NTask where
  title : String
  priority : Int
deriving DecidableEq, Repr

/-- `parseInt(n, 10)` applied to a JavaScript number: truncation toward zero
(as happens for every decimal-notation number; the exotic exponent-notation
strings `String(n)` produces for `|n| ≥ 1e21` do not arise in the validated
domain used here). -/
def jsParseIntOfNum (q : ℚ) : Int := q.num.tdiv q.den

/-- The `.map` step of `normalizeTasks`: trim the title, `parseInt` the
priority. -/
def trimmedTask (t : RawTask) : NTask := ⟨jsTrim t.title, jsParseIntOfNum t.priority⟩

/-- Insert into an already-sorted list: the new element goes before the first
element whose priority is not smaller, so an earlier-input element precedes
all later ties — exactly the ECMAScript stable `Array.prototype.sort` with
comparator `(a, b) => a.priority - b.priority`. -/
def insertByPriority (t : NTask) : List NTask → List NTask
  | [] => [t]
  | u :: us => if u.priority < t.priority then u :: insertByPriority t us else t :: u :: us

/-- Stable ascending sort by `.priority` (insertion sort; stable sorts with
the same key agree, so this is the ECMAScript `sort` result). -/
def stableSortByPriority : List NTask → List NTask
  | [] => []
  | t :: ts => insertByPriority t (stableSortByPriority ts)

/-- The final `.map((task, index) => ({...task, priority: index + 1}))`. -/
def reindexTasks : Int → List NTask → List NTask
  | _, [] => []
  | n, t :: ts => ⟨t.title, n⟩ :: reindexTasks (n + 1) ts

/-- `responseParser.normalizeTasks`. -/
def normalizeTasks (tasks : List RawTask) : List NTask :=
  reindexTasks 1 (stableSortByPriority (tasks.map trimmedTask))

/-- The fixed alignment question appended to decision reasoning. -/
def ALIGNMENT_SUFFIX : String :=
  "Are we aligned, or should we challenge this before moving on?"

/-- `reasoning.replace(/[.!?]$/, '')`: drop one trailing `.`, `!` or `?`
(without the `m` flag, `$` matches only at the very end of the string). -/
def stripOneTrailingPunct (s : String) : String :=
  match s.data.reverse with
  | [] => s
  | c :: rest =>
    if c = '.' || c = '!' || c = '?' then String.mk rest.reverse else s

/-- `responseParser.ensureAlignmentQuestion`. -/
def ensureAlignmentQuestion (reasoning : String) : String :=
  if jsIncludes reasoning ALIGNMENT_SUFFIX then reasoning
  else jsTrim (stripOneTrailingPunct reasoning) ++ ". " ++ ALIGNMENT_SUFFIX

/-- The parsed JSON value fed to `validateDecisionStructure` (see the section
comment for the domain). -/
structure ParsedReply where
  decision : String
  reasoning : String
  tasks : List RawTask
deriving DecidableEq, Repr

/-- A validated decision record. -/
structure Decision where
  decision : String
  reasoning : String
  tasks : List NTask
deriving DecidableEq, Repr

/-- Per-task field errors of `validateDecisionStructure` (the `forEach` over
`data.tasks`); `i` is the zero-based index. A falsy (empty) title is the
"missing or invalid title" case; `priority < 1` the "missing or invalid
priority" case. -/
def taskFieldErrors (i : Nat) : List RawTask → List String
  | [] => []
  | t :: ts =>
    (if t.title = "" then ["Task " ++ toString (i + 1) ++ ": missing or invalid \"title\""] else []) ++
    (if t.priority < 1 then ["Task " ++ toString (i + 1) ++ ": missing or invalid \"priority\""] else []) ++
    taskFieldErrors (i + 1) ts

/-- `responseParser.validateDecisionStructure`: collects field errors and
throws them (here: `Except.error`, carrying the list the source joins with
`'; '`), otherwise trims `decision`/`reasoning` and normalizes the tasks. -/
def validateDecisionStructure (data : ParsedReply) : Except (List String) Decision :=
  let errors :=
    (if data.decision = "" then ["Missing or invalid \"decision\" field"] else []) ++
    (if data.reasoning = "" then ["Missing or invalid \"reasoning\" field"] else []) ++
    (if data.tasks.isEmpty then ["Missing or empty \"tasks\" array"] else []) ++
    (if data.tasks.length > 5 then ["Maximum 5 tasks allowed"] else []) ++
    taskFieldErrors 0 data.tasks
  if errors.isEmpty then
    .ok ⟨jsTrim data.decision, jsTrim data.reasoning, normalizeTasks data.tasks⟩
  else .error errors

/-- `responseParser.parseDecisionResponse`, from the `JSON.parse`d value on:
validate, then force the alignment question into the reasoning. -/
def parseDecisionResponse (data : ParsedReply) : Except (List String) Decision :=
  match validateDecisionStructure data with
  | .error es => .error es
  | .ok d => .ok { d with reasoning := ensureAlignmentQuestion d.reasoning }

/-- Modelled from the spec: the normalization step as the specification
describes it — "sorting ascending by declared priority (ties broken by
original order — stable sort) then reassigning priorities densely as 1..N".
The sort key here is the *declared* (untruncated) priority; compare with
`normalizeTasks`, whose key is the `parseInt`-truncated priority. -/
def insertByDeclaredPriority (t : RawTask) : List RawTask → List RawTask
  | [] => [t]
  | u :: us =>
    if u.priority < t.priority then u :: insertByDeclaredPriority t us else t :: u :: us

/-- Modelled from the spec: stable sort by declared priority. -/
def stableSortByDeclared : List RawTask → List RawTask
  | [] => []
  | t :: ts => insertByDeclaredPriority t (stableSortByDeclared ts)

/-- Modelled from the spec: `normalizeTasks` as the specification words it
(stable sort on the declared priorities, then dense 1..N reassignment). -/
def specNormalizeTasks (tasks : List RawTask) : List NTask :=
  reindexTasks 1 ((stableSortByDeclared tasks).map trimmedTask)

/-! ### Kernel-reducible rational arithmetic

`Rat.add`/`Rat.mul`/… are `@[irreducible]` in Batteries, which blocks `decide`
on concrete runs.  The wrappers below implement the same exact-rational
operations through `mkRat` (which does reduce); bridge lemmas identifying them
with the field operations are proved in the theorem section. -/

def qadd (a b : ℚ) : ℚ := mkRat (a.num * b.den + b.num * a.den) (a.den * b.den)

def qsub (a b : ℚ) : ℚ := mkRat (a.num * b.den - b.num * a.den) (a.den * b.den)

def qmul (a b : ℚ) : ℚ := mkRat (a.num * b.num) (a.den * b.den)

/-- Division of a rational by a positive natural (the only division the
scorer performs: averaging over `tasks.length`, and `/100`). -/
def qdivNat (a : ℚ) (n : Nat) : ℚ := mkRat a.num (a.den * n)

/-- `Math.min` on two (non-NaN) numbers. -/
def jsMinQ (a b : ℚ) : ℚ := if a ≤ b then a else b

/-- `Math.max` on two (non-NaN) numbers. -/
def jsMaxQ (a b : ℚ) : ℚ := if a ≤ b then b else a

/-- `Math.max(0, Math.min(1, x))`. -/
def clamp01 (x : ℚ) : ℚ := jsMaxQ (mkRat 0 1) (jsMinQ (mkRat 1 1) x)

/-- `Math.round` (half rounds toward `+∞`). -/
def jsMathRound (x : ℚ) : Int := Rat.floor (qadd x (mkRat 1 2))

/-! ### Confidence scorer (`src/utils/confidenceScore.js`) -/

/-- The decision object handed to the scorer (the scorer reads
`decision.decision`, `decision.reasoning` and the task titles). -/
structure ScoredDecision where
  decision : String
  reasoning : String
  tasks : List NTask
deriving DecidableEq, Repr

/-- The scorer's `context` argument: `userInput` possibly absent,
`hasContext` a boolean (absent = falsy = `false`). -/
structure ScoreContext where
  userInput : Option String
  hasContext : Bool
deriving DecidableEq, Repr

def clarityIndicators : List String := ["want", "need", "goal", "problem", "decision"]

/-- `calculateInputClarity` (`!input` is true for an absent and for an empty
string). -/
def calculateInputClarity (input : Option String) : ℚ :=
  match input with
  | none => mkRat 1 2
  | some s =>
    if s = "" then mkRat 1 2
    else
      let len := s.length
      let lower := jsLower s
      let sc := mkRat 1 2
      let sc := if len > 50 then qadd sc (mkRat 1 10) else sc
      let sc := if len > 100 then qadd sc (mkRat 1 10) else sc
      let sc := if len > 200 then qadd sc (mkRat 1 10) else sc
      let sc := clarityIndicators.foldl
        (fun a kw => if jsIncludes lower kw then qadd a (mkRat 5 100) else a) sc
      let sc := if len < 20 then qsub sc (mkRat 1 5) else sc
      clamp01 sc

def specificityActionVerbs : List String :=
  ["create", "build", "implement", "start", "focus", "prioritize"]

def vagueWords : List String := ["maybe", "perhaps", "might", "could", "possibly"]

/-- `calculateDecisionSpecificity`. -/
def calculateDecisionSpecificity (decision : String) : ℚ :=
  if decision = "" then mkRat 0 1
  else
    let wordCount := (jsSplitWs decision).length
    let lower := jsLower decision
    let sc := mkRat 1 2
    let sc := if wordCount > 5 then qadd sc (mkRat 1 10) else sc
    let sc := if wordCount > 10 then qadd sc (mkRat 1 10) else sc
    let sc := specificityActionVerbs.foldl
      (fun a v => if jsIncludes lower v then qadd a (mkRat 5 100) else a) sc
    let sc := vagueWords.foldl
      (fun a w => if jsIncludes lower w then qsub a (mkRat 1 10) else a) sc
    clamp01 sc

def actionabilityVerbs : List String :=
  ["create", "build", "write", "set up", "implement",
   "design", "review", "test", "deploy", "configure"]

/-- The per-task score inside `calculateTaskActionability`. -/
def taskScore (t : NTask) : ℚ :=
  let lowerTitle := jsLower t.title
  let sc := mkRat 1 2
  let sc := if actionabilityVerbs.any (fun v => jsStartsWith lowerTitle v)
    then qadd sc (mkRat 1 5) else sc
  let sc := if t.title.data.any Char.isDigit then qadd sc (mkRat 1 10) else sc
  let sc := if t.title.length > 10 then qadd sc (mkRat 1 10) else sc
  let sc := if jsIncludes lowerTitle ("etc") || jsIncludes lowerTitle ("...")
    then qsub sc (mkRat 1 5) else sc
  sc

/-- `calculateTaskActionability`: average of per-task scores, clamped; `0`
for an empty task list. -/
def calculateTaskActionability (tasks : List NTask) : ℚ :=
  if tasks.isEmpty then mkRat 0 1
  else
    let total := tasks.foldl (fun a t => qadd a (taskScore t)) (mkRat 0 1)
    clamp01 (qdivNat total tasks.length)

def causalWords : List String :=
  ["because", "therefore", "since", "as a result", "this means"]

/-- `calculateReasoningQuality` (note: the causal-word checks lowercase the
text, the `'aligned'` check does not). -/
def calculateReasoningQuality (reasoning : String) : ℚ :=
  if reasoning = "" then mkRat 0 1
  else
    let lower := jsLower reasoning
    let sc := mkRat 1 2
    let sc := causalWords.foldl
      (fun a w => if jsIncludes lower w then qadd a (mkRat 1 10) else a) sc
    let wordCount := (jsSplitWs reasoning).length
    let sc := if wordCount ≥ 10 && wordCount ≤ 100 then qadd sc (mkRat 1 10) else sc
    let sc := if jsIncludes reasoning ("aligned") then qadd sc (mkRat 1 10) else sc
    clamp01 sc

/-- `getConfidenceLevel` — applied by the source to the *unrounded* total. -/
def getConfidenceLevel (score : ℚ) : String :=
  if mkRat 4 5 ≤ score then ("high")
  else if mkRat 3 5 ≤ score then ("medium")
  else if mkRat 2 5 ≤ score then ("low")
  else ("very_low")

/-- The five factors, as computed by `calculateConfidenceScore`. -/
structure ConfidenceFactors where
  inputClarity : ℚ
  decisionSpecificity : ℚ
  taskActionability : ℚ
  reasoningQuality : ℚ
  contextAvailability : ℚ
deriving DecidableEq, Repr

structure ConfidenceResult where
  overall : ℚ
  factors : ConfidenceFactors
  level : String
deriving DecidableEq, Repr

def confidenceFactors (decision : ScoredDecision) (context : ScoreContext) :
    ConfidenceFactors where
  inputClarity := calculateInputClarity context.userInput
  decisionSpecificity := calculateDecisionSpecificity decision.decision
  taskActionability := calculateTaskActionability decision.tasks
  reasoningQuality := calculateReasoningQuality decision.reasoning
  contextAvailability := if context.hasContext then mkRat 1 10 else mkRat 0 1

/-- The weighted total (`totalScore` in the source; weights 0.2, 0.25, 0.25,
0.2, 0.1 in the factors' entry order). -/
def confidenceTotal (f : ConfidenceFactors) : ℚ :=
  qadd (qadd (qadd (qadd
    (qmul f.inputClarity (mkRat 2 10))
    (qmul f.decisionSpecificity (mkRat 25 100)))
    (qmul f.taskActionability (mkRat 25 100)))
    (qmul f.reasoningQuality (mkRat 2 10)))
    (qmul f.contextAvailability (mkRat 1 10))

/-- `calculateConfidenceScore`: `overall` is the total rounded to 2 decimals
(`Math.round(totalScore * 100) / 100`); `level` is computed from the
unrounded total. -/
def calculateConfidenceScore (decision : ScoredDecision) (context : ScoreContext) :
    ConfidenceResult :=
  let factors := confidenceFactors decision context
  let totalScore := confidenceTotal factors
  { overall := mkRat (jsMathRound (qmul totalScore (mkRat 100 1))) 100
    factors := factors
    level := getConfidenceLevel totalScore }

/-! ### Input normalizer (`src/utils/normalizeInput.js`) -/

/-- A JavaScript value as it can reach `validateInput` (string, number,
boolean, `null`, `undefined`; objects/arrays would behave like the
non-string truthy case and add nothing to the claims under study). -/
inductive JSVal where
  | vstr (s : String)
  | vnum (q : ℚ)
  | vbool (b : Bool)
  | vnull
  | vundef
deriving DecidableEq, Repr

/-- JavaScript falsiness for the values of `JSVal` (`NaN` excluded by the
exact-rational model). -/
def jsFalsy : JSVal → Bool
  | .vstr s => s = ""
  | .vnum q => q = mkRat 0 1
  | .vbool b => !b
  | .vnull => true
  | .vundef => true

def isJsString : JSVal → Bool
  | .vstr _ => true
  | _ => false

/-- The characters removed by `normalizeInput`'s
`[\x00-\x08\x0B\x0C\x0E-\x1F\x7F]` class. -/
def isStrippedCtrl (c : Char) : Bool :=
  (c.toNat ≤ 8) || c = '\x0b' || c = '\x0c' ||
  (14 ≤ c.toNat && c.toNat ≤ 31) || c.toNat = 127

/-- `replace(/\s+/g, ' ')`: collapse each maximal whitespace run to one
space. -/
def collapseWsGo (inRun : Bool) : List Char → List Char
  | [] => []
  | c :: cs =>
    if jsWhitespaceChar c then
      if inRun then collapseWsGo true cs else ' ' :: collapseWsGo true cs
    else c :: collapseWsGo false cs

/-- The quote and dash normalization steps (curly double quotes to `"`,
curly single quotes to `'`, en/em dash to `-`); the replaced classes are
disjoint single characters, so the source's sequence of `replace` calls is
one character map. -/
def normPunct (c : Char) : Char :=
  if c = '“' || c = '”' then '"'
  else if c = '‘' || c = '’' then apos
  else if c = '–' || c = '—' then '-'
  else c

/-- `normalizeInput`: non-strings and falsy values give `''`; otherwise trim,
collapse whitespace, strip control characters, normalize quotes/dashes. -/
def normalizeInput (v : JSVal) : String :=
  match v with
  | .vstr s =>
    if s = "" then ("")
    else String.mk (((collapseWsGo false (jsTrimList s.data)).filter
      (fun c => !isStrippedCtrl c)).map normPunct)
  | _ => ""

structure ValidationResult where
  valid : Bool
  errors : List String
  normalized : Option String
deriving DecidableEq, Repr

def inputRequiredMsg : String := "Input is required"
def inputTypeMsg : String := "Input must be a string"
def tooShortMsg : String := "Input is too short (minimum 3 characters)"
def tooLongMsg : String := "Input is too long (maximum 10000 characters)"
def noTextMsg : String := "Input must contain text"

/-- `validateInput` (the early `!input` return fires on every falsy value,
including the empty string, before the type and length checks; the absent
`normalized` of the early returns and the `null` of the invalid case are
both `none`). -/
def validateInput (v : JSVal) : ValidationResult :=
  if jsFalsy v then ⟨false, [inputRequiredMsg], none⟩
  else if !(isJsString v) then ⟨false, [inputTypeMsg], none⟩
  else
    let normalized := normalizeInput v
    let errors :=
      (if normalized.length < 3 then [tooShortMsg] else []) ++
      (if normalized.length > 10000 then [tooLongMsg] else []) ++
      (if !(normalized.data.any Char.isAlpha) then [noTextMsg] else [])
    ⟨errors.isEmpty, errors, if errors.isEmpty then some normalized else none⟩

/-! ### Priority service (`src/services/task/priorityService.js`) -/

/-- A persisted task as `reorderTasks` sees it (spread fields beyond `id`,
`title`, `priority` carry no logic). -/
structure PTask where
  id : Nat
  title : String
  priority : Int
deriving DecidableEq, Repr

/-- The `for (let i = 0; i < otherTasks.length + 1; i++)` body of
`reorderTasks`: one constructor case per iteration, plus the final iteration
where `otherTasks[i]` is `undefined`.  `c` is `priorityCounter`.  Note there
is no insertion when the counter never reaches `newPriority`. -/
def reorderAux (task : PTask) (newPriority : Int) : List PTask → Int → List PTask
  | [], c => if c = newPriority then [{ task with priority := c }] else []
  | o :: rest, c =>
    if c = newPriority then
      { task with priority := c } :: { o with priority := c + 1 } ::
        reorderAux task newPriority rest (c + 2)
    else
      { o with priority := c } :: reorderAux task newPriority rest (c + 1)

/-- `priorityService.reorderTasks`. -/
def reorderTasks (tasks : List PTask) (taskId : Nat) (newPriority : Int) : List PTask :=
  match tasks.find? (fun t => t.id == taskId) with
  | none => tasks
  | some task => reorderAux task newPriority (tasks.filter (fun t => t.id != taskId)) 1

/-! ### Session model (`src/models/session.model.js`) and its controller -/

def PHASE_ORDER : List String := ["DUMP", "CLARITY", "DECISION", "PLANNING", "EXECUTION"]

structure StoredMsg where
  role : String
  content : String
  phase : String
deriving DecidableEq, Repr

/-- One session record of the in-memory store (`id`, `user_id` and the
timestamps carry no phase logic and are elided). -/
structure SessState where
  current_phase : String
  messages : List StoredMsg
deriving DecidableEq, Repr

def jsIndexOfAux (s : String) : List String → Int → Int
  | [], _ => -1
  | x :: xs, i => if x = s then i else jsIndexOfAux s xs (i + 1)

/-- `Array.prototype.indexOf` (`-1` when absent). -/
def jsIndexOf (l : List String) (s : String) : Int := jsIndexOfAux s l 0

/-- `SessionModel.create`: always starts in `DUMP` with an empty message
list. -/
def sessionCreate : SessState := ⟨"DUMP", []⟩

/-- `SessionModel.addMessage` on an existing session: appends the message,
leaves the phase untouched. -/
def sessionAddMessage (st : SessState) (role content phase : String) :
    SessState × StoredMsg :=
  let m : StoredMsg := ⟨role, content, phase⟩
  ({ st with messages := st.messages ++ [m] }, m)

/-- `SessionModel.advancePhase` on an existing session: `null` when past the
final phase, otherwise step to `PHASE_ORDER[nextIndex]` (in range whenever
the check passes, so the `getD` default is never used). -/
def sessionAdvancePhase (st : SessState) : Option SessState :=
  let currentIndex := jsIndexOf PHASE_ORDER st.current_phase
  let nextIndex := currentIndex + 1
  if (PHASE_ORDER.length : Int) ≤ nextIndex then none
  else some { st with current_phase := PHASE_ORDER.getD nextIndex.toNat ("") }

/-- `SessionModel.canAdvance`. -/
def canAdvance (currentPhase : String) : Bool :=
  jsIndexOf PHASE_ORDER currentPhase < (PHASE_ORDER.length : Int) - 1

/-- The session states reachable through the store's operations (a session is
born via `create` and mutated only by `addMessage` and `advancePhase`). -/
inductive ReachableSession : SessState → Prop where
  | create : ReachableSession sessionCreate
  | addMsg (st : SessState) (r c p : String) :
      ReachableSession st → ReachableSession (sessionAddMessage st r c p).1
  | advance (st st2 : SessState) :
      ReachableSession st → sessionAdvancePhase st = some st2 → ReachableSession st2

def phase2NotImplementedMsg : String :=
  "Phase 2 (CLARITY) is not yet implemented. Stay in the dump phase for now."

def cannotAdvanceMsg : String := "Cannot advance from current phase"

/-- `sessionController.advancePhase` composed with
`sessionService.advancePhase` (both read the same store, so the service's
second not-found lookup is the controller's): missing session, the explicit
DUMP rejection, the service's `canAdvance` guard, then the model update
(whose `null` the controller maps to the same bad-request). -/
def controllerAdvancePhase (sess : Option SessState) : Except String SessState :=
  match sess with
  | none => .error ("Session not found")
  | some st =>
    if st.current_phase = "DUMP" then .error phase2NotImplementedMsg
    else if !(canAdvance st.current_phase) then .error cannotAdvanceMsg
    else
      match sessionAdvancePhase st with
      | some st2 => .ok st2
      | none => .error cannotAdvanceMsg

/-- Modelled from the spec: the "immediate successor in the fixed order
DUMP, CLARITY, DECISION, PLANNING, EXECUTION", used to state the
phase-advance claim. -/
def specNextPhase : String → Option String
  | "DUMP" => some ("CLARITY")
  | "CLARITY" => some ("DECISION")
  | "DECISION" => some ("PLANNING")
  | "PLANNING" => some ("EXECUTION")
  | _ => none

/-! ### Phase prompts and configuration (`src/services/ai/phasePrompts.js`) -/

/-- The apostrophe as a one-character string (for prompt/pattern texts). -/
def aposS : String := String.mk [apos]

/-- The DUMP-phase system prompt (verbatim; apostrophes spliced). -/
def DUMP_PHASE_PROMPT : String :=
  "You are a calm, grounding presence helping someone offload their thoughts.\n\nYOUR ROLE:\nYou are NOT a coach. You are NOT an advisor. You are a mirror.\nYour only job is to help the person feel heard and understood.\n\nSTRICT RULES — FOLLOW EXACTLY:\n\n1. REFLECT emotions and themes you notice in their words\n2. NORMALIZE any confusion, overwhelm, or messiness\n3. KEEP responses SHORT — 3 to 5 lines maximum\n4. SOUND calm, warm, and grounded — never authoritative\n\nFORBIDDEN ACTIONS — NEVER DO THESE:\n\n❌ DO NOT ask questions\n❌ DO NOT give advice or suggestions\n❌ DO NOT add your own ideas\n❌ DO NOT create lists, bullet points, or structured summaries\n❌ DO NOT suggest next steps or actions\n❌ DO NOT try to solve or fix anything\n❌ DO NOT use phrases like \"you should\", \"try to\", \"consider\", \"what if\"\n\nIF THE USER ASKS FOR ADVICE:\nGently acknowledge the urge but redirect to expression.\nExample: \"It makes sense you" ++ aposS ++
  "d want answers right now. For now, just let it out — there" ++ aposS ++
  "s time for that later.\"\n\nTONE:\n- Warm but not enthusiastic\n- Present but not intrusive\n- Accepting without judgment\n- Like a trusted friend who just listens\n\nRESPONSE FORMAT:\n- Plain text only\n- No markdown, no formatting\n- No emojis\n- 3-5 short lines"

def CLARITY_PHASE_PROMPT : String :=
  "[PHASE 2 - NOT YET IMPLEMENTED]\nThis phase will help name and clarify the core problem."

def DECISION_PHASE_PROMPT : String :=
  "[PHASE 3 - NOT YET IMPLEMENTED]\nThis phase will help commit to or defer a decision."

def PLANNING_PHASE_PROMPT : String :=
  "[PHASE 4 - NOT YET IMPLEMENTED]\nThis phase will create light structure around the decision."

def EXECUTION_PHASE_PROMPT : String :=
  "[PHASE 5 - NOT YET IMPLEMENTED]\nThis phase will support the user during action."

/-- `getPhasePrompt` as a partial lookup (`none` models the
`Unknown phase` throw). -/
def getPhasePromptO : String → Option String
  | "DUMP" => some DUMP_PHASE_PROMPT
  | "CLARITY" => some CLARITY_PHASE_PROMPT
  | "DECISION" => some DECISION_PHASE_PROMPT
  | "PLANNING" => some PLANNING_PHASE_PROMPT
  | "EXECUTION" => some EXECUTION_PHASE_PROMPT
  | _ => none

/-- Per-phase LLM sampling configuration. -/
structure PhaseConfig where
  temperature : ℚ
  maxTokens : Nat
  topP : ℚ
deriving DecidableEq, Repr

/-- `getPhaseConfig` as a partial lookup; keyed on exactly the phases of
`getPhasePromptO`, so one unknown-phase check covers both throws. -/
def getPhaseConfigO : String → Option PhaseConfig
  | "DUMP" => some ⟨mkRat 4 10, 150, mkRat 9 10⟩
  | "CLARITY" => some ⟨mkRat 5 10, 200, mkRat 9 10⟩
  | "DECISION" => some ⟨mkRat 3 10, 250, mkRat 85 100⟩
  | "PLANNING" => some ⟨mkRat 4 10, 300, mkRat 9 10⟩
  | "EXECUTION" => some ⟨mkRat 5 10, 200, mkRat 9 10⟩
  | _ => none

/-- A chat message as sent to the LLM. -/
structure Msg where
  role : String
  content : String
deriving DecidableEq, Repr

/-- `buildPhaseMessages`: the phase's system prompt followed by the
conversation history (the source's projection of each history entry to
`{role, content}` is the identity on `Msg`). -/
def buildPhaseMessages (phase : String) (history : List Msg) : Option (List Msg) :=
  (getPhasePromptO phase).map (fun p => Msg.mk ("system") p :: history)

/-! ### DUMP-phase forbidden-content checker (`src/services/session/sessionService.js`,
the session service of the task/session module) -/

/-- Case-insensitive match of the (lowercase) `phrase` against the front of
`cs`; returns the remainder on success. -/
def ciPrefixRest : List Char → List Char → Option (List Char)
  | [], cs => some cs
  | _, [] => none
  | p :: ps, c :: cs => if c.toLower = p then ciPrefixRest ps cs else none

/-- `/\?$/m`: some `?` sits at the end of the string or right before a line
terminator. -/
def qmEndOfLine : List Char → Bool
  | [] => false
  | c :: cs =>
    (c = '?' && (match cs with | [] => true | d :: _ => jsLineTerm d)) || qmEndOfLine cs

def questionWords : List String :=
  ["what", "how", "why", "when", "where", "who", "would", "could", "can",
   "do", "does", "have", "has", "are", "is"]

/-- One alternative of `/^(question words)\s/im` at the current position:
the word, case-insensitively, followed by a `\s` character. -/
def wordThenWs (w : String) (cs : List Char) : Bool :=
  match ciPrefixRest w.data cs with
  | some (c :: _) => jsWhitespaceChar c
  | _ => false

/-- Does `p` hold just after some line terminator? -/
def afterLineStarts (p : List Char → Bool) : List Char → Bool
  | [] => false
  | c :: rest => (jsLineTerm c && p rest) || afterLineStarts p rest

/-- Multiline `^`: `p` holds at the start of the string or of some later
line. -/
def atLineStarts (p : List Char → Bool) (cs : List Char) : Bool :=
  p cs || afterLineStarts p cs

def questionWordStart (s : String) : Bool :=
  atLineStarts (fun cs => questionWords.any (fun w => wordThenWs w cs)) s.data

/-- Word-bounded match of `phrase` at the current position (`\b(phrase)\b`;
every phrase in the checker begins and ends with a `\w` character, so the
boundaries reduce to: the previous character is not `\w`, and the character
after the match, if any, is not `\w`). -/
def wbMatchAt (phrase : List Char) (cs : List Char) : Bool :=
  match ciPrefixRest phrase cs with
  | some [] => true
  | some (c :: _) => !(jsWordChar c)
  | none => false

/-- Scan for a word-bounded, case-insensitive occurrence; `prevW` says
whether the previous character was a `\w` character. -/
def wbContainsAux (phrase : List Char) : Bool → List Char → Bool
  | _, [] => false
  | prevW, c :: rest =>
    (!prevW && wbMatchAt phrase (c :: rest)) || wbContainsAux phrase (jsWordChar c) rest

/-- `/\b(...)\b/i.test(s)` for one alternative `phrase`. -/
def wbContains (s : String) (phrase : String) : Bool :=
  wbContainsAux phrase.data false s.data

def advicePhrases1 : List String :=
  ["you should", "you could", "try to", "consider", "i suggest", "i recommend",
   "maybe you", "perhaps you"]

def advicePhrases2 : List String :=
  ["why don" ++ aposS ++ "t you", "what if you", "have you tried"]

/-- `/^\s*[-•*]\s/` at a line start (`\s*` must consume the maximal
whitespace run, since the bullet characters are not whitespace). -/
def bulletStart (cs : List Char) : Bool :=
  match cs.dropWhile jsWhitespaceChar with
  | b :: c :: _ => (b = '-' || b = '•' || b = '*') && jsWhitespaceChar c
  | _ => false

/-- `/^\s*\d+\.\s/` at a line start. -/
def numberedStart (cs : List Char) : Bool :=
  let r := cs.dropWhile jsWhitespaceChar
  let ds := r.takeWhile Char.isDigit
  let rest := r.dropWhile Char.isDigit
  !ds.isEmpty && (match rest with | '.' :: c :: _ => jsWhitespaceChar c | _ => false)

/-- `/^#{1,6}\s/` at a line start (any shorter `#` run is followed by another
`#`, so only the maximal run up to 6 can succeed). -/
def headerStart (cs : List Char) : Bool :=
  let hs := cs.takeWhile (fun c => c = '#')
  let rest := cs.dropWhile (fun c => c = '#')
  1 ≤ hs.length && hs.length ≤ 6 &&
    (match rest with | c :: _ => jsWhitespaceChar c | _ => false)

def nextStepsPhrases1 : List String :=
  ["next step", "first step", "start by", "begin with", "action item"]

def nextStepsPhrases2 : List String := ["to-do", "todo", "task", "plan"]

def dumpQuestionsHit (s : String) : Bool := qmEndOfLine s.data || questionWordStart s

def dumpAdviceHit (s : String) : Bool :=
  advicePhrases1.any (fun p => wbContains s p) || advicePhrases2.any (fun p => wbContains s p)

def dumpStructureHit (s : String) : Bool :=
  atLineStarts bulletStart s.data || atLineStarts numberedStart s.data ||
    atLineStarts headerStart s.data

def dumpNextStepsHit (s : String) : Bool :=
  nextStepsPhrases1.any (fun p => wbContains s p) ||
    nextStepsPhrases2.any (fun p => wbContains s p)

structure VioCheck where
  hasViolations : Bool
  violations : List String
deriving DecidableEq, Repr

/-- `checkDumpPhaseViolations`: at most one entry per category, in the
object's insertion order (the source also records the matching pattern's
text, which is display-only; the model keeps the category name). -/
def checkDumpPhaseViolations (response : String) : VioCheck :=
  let vs :=
    (if dumpQuestionsHit response then ["questions"] else []) ++
    (if dumpAdviceHit response then ["advice"] else []) ++
    (if dumpStructureHit response then ["structure"] else []) ++
    (if dumpNextStepsHit response then ["nextSteps"] else [])
  ⟨!vs.isEmpty, vs⟩

/-- Split on `'\n'` (`String.prototype.split('\n')`). -/
def splitNlGo (cur : List Char) : List Char → List (List Char)
  | [] => [cur.reverse]
  | c :: cs => if c = '\n' then cur.reverse :: splitNlGo [] cs else splitNlGo (c :: cur) cs

def jsSplitNl (s : String) : List String := (splitNlGo [] s.data).map String.mk

structure LengthCheck where
  isValid : Bool
  lineCount : Nat
deriving DecidableEq, Repr

/-- `checkResponseLength`: the number of nonblank lines of the trimmed
response must be between 1 and 6. -/
def checkResponseLength (response : String) : LengthCheck :=
  let lines := (jsSplitNl (jsTrim response)).filter (fun l => jsTrim l != "")
  ⟨1 ≤ lines.length && lines.length ≤ 6, lines.length⟩

/-! ### Phase response generation and message processing -/

/-- The result object of `generatePhaseResponse` (`violations` is `[]` on the
success path, where the source omits the field). -/
structure GenResult where
  content : String
  validationPassed : Bool
  regenerated : Bool
  violations : List String
deriving DecidableEq, Repr

/-- The corrective system message appended before a regeneration attempt. -/
def reminderMsg : Msg :=
  ⟨"system", "REMINDER: Your previous response violated phase rules. DO NOT ask questions. DO NOT give advice. DO NOT use lists. Keep it to 3-5 lines of plain reflection."⟩

def MAX_ATTEMPTS : Nat := 3

/-- The validation test of `generatePhaseResponse`:
`violations.hasViolations || !lengthCheck.isValid`. -/
def dumpFailsCheck (content : String) : Bool :=
  (checkDumpPhaseViolations content).hasViolations || !(checkResponseLength content).isValid

/-- Worker for `generatePhaseResponse`.  The LLM is the `oracle` (message
sequence to reply text, or a thrown provider error); the sampling
configuration (`getPhaseConfigO`) is constant per phase and is absorbed into
the oracle.  `remaining = MAX_ATTEMPTS - attempt` renders the source's
`attempt < MAX_ATTEMPTS` guard structurally (the guard holds exactly when
`remaining > 0`, and the recursive call decrements `remaining` as it
increments `attempt`).  The second component of the result counts the LLM
calls made. -/
def genAux (oracle : List Msg → Except String String) (phase : String) :
    Nat → List Msg → Nat → Except String (GenResult × Nat)
  | remaining, history, attempt =>
    match buildPhaseMessages phase history with
    | none => .error ("Unknown phase: " ++ phase)
    | some messages =>
      match oracle messages with
      | .error e => .error e
      | .ok raw =>
        let content := jsTrim raw
        if phase = "DUMP" then
          if dumpFailsCheck content then
            match remaining with
            | r + 1 =>
              (genAux oracle phase r (history ++ [reminderMsg]) (attempt + 1)).map
                (fun p => (p.1, p.2 + 1))
            | 0 =>
              .ok (⟨content, false, decide (attempt > 1),
                (checkDumpPhaseViolations content).violations⟩, 1)
          else .ok (⟨content, true, decide (attempt > 1), []⟩, 1)
        else .ok (⟨content, true, decide (attempt > 1), []⟩, 1)

/-- `sessionService.generatePhaseResponse`. -/
def generatePhaseResponse (oracle : List Msg → Except String String) (phase : String)
    (conversationHistory : List Msg) (attempt : Nat) : Except String (GenResult × Nat) :=
  genAux oracle phase (MAX_ATTEMPTS - attempt) conversationHistory attempt

/-- An LLM oracle that never throws. -/
def pureOracle (f : List Msg → String) : List Msg → Except String String :=
  fun ms => .ok (f ms)

/-- What `processMessage` returns to the controller. -/
structure ProcOut where
  message : StoredMsg
  phase : String
  validationPassed : Bool
  regenerated : Bool
deriving DecidableEq, Repr

def toMsg (m : StoredMsg) : Msg := ⟨m.role, m.content⟩

/-- `sessionService.processMessage`: look the session up, *persist the user
message*, then build the history (from the pre-append snapshot plus the new
user turn), generate the phase response, and persist the assistant message.
The returned state is the store's content when the call finishes — also when
the oracle throws, in which case the user message is already stored. -/
def processMessage (sess : Option SessState) (userContent : String)
    (oracle : List Msg → Except String String) :
    Except String ProcOut × Option SessState :=
  match sess with
  | none => (.error ("Session not found"), none)
  | some st =>
    let currentPhase := st.current_phase
    let st1 := (sessionAddMessage st ("user") userContent currentPhase).1
    let history := st.messages.map toMsg ++ [⟨"user", userContent⟩]
    match generatePhaseResponse oracle currentPhase history 1 with
    | .error e => (.error e, some st1)
    | .ok (r, _) =>
      let saved := sessionAddMessage st1 ("assistant") r.content currentPhase
      (.ok ⟨saved.2, currentPhase, r.validationPassed, r.regenerated⟩, some saved.1)

/-- The trimmed reply a deterministic no-throw oracle `f` produces for one
DUMP-phase attempt over `history`. -/
def attemptContent (f : List Msg → String) (history : List Msg) : String :=
  jsTrim (f (Msg.mk ("system") DUMP_PHASE_PROMPT :: history))

/-! ### Statement-support definitions (sequential renumbering, concrete
inputs used by counterexamples and witnesses) -/

/-- Sequential renumbering of persisted tasks starting at `n` (what
`reorderTasks`'s loop does to the elements it emits). -/
def reindexPTasks : Int → List PTask → List PTask
  | _, [] => []
  | n, t :: ts => { t with priority := n } :: reindexPTasks (n + 1) ts

/-- Tasks whose declared priorities 2.5 and 2.3 truncate to the same integer:
the source sorts them by the truncation, the spec's wording by the declared
value. -/
def c2CexTasks : List RawTask := [⟨"A", mkRat 5 2⟩, ⟨"B", mkRat 23 10⟩]

def c2CexReply : ParsedReply := ⟨"d", "r", c2CexTasks⟩

/-- A reply whose reasoning contains the alignment suffix in the middle. -/
def c3CexReasoning : String := ALIGNMENT_SUFFIX ++ " Indeed."

def c3CexReply : ParsedReply := ⟨"d", c3CexReasoning, [⟨"t", mkRat 1 1⟩]⟩

def c3ScenarioReply : ParsedReply := ⟨"d", "Focus on X", [⟨"t", mkRat 1 1⟩]⟩

/-- A user input longer than 200 characters containing every clarity
keyword. -/
def c6UserInput : String :=
  "I want and need a goal for this problem and decision " ++
    String.mk (List.replicate 200 'x')

/-- A decision/context pair whose unrounded confidence total is 0.7975:
`overall` rounds to 0.8, but the level (computed from the unrounded total)
is `medium`. -/
def c6Dec : ScoredDecision :=
  { decision := "create build implement start focus prioritize alpha beta gamma delta epsilon zeta"
    reasoning := "because therefore since as a result this means"
    tasks := [⟨"go home", 1⟩, ⟨"go home now ok", 2⟩] }

def c6Ctx : ScoreContext := ⟨some c6UserInput, true⟩

/-- 11000 characters of text (the too-long validation scenario). -/
def c7LongInput : String := String.mk (List.replicate 11000 'a')

/-- Two persisted tasks; moving task 1 to "priority 3" (out of range for a
2-element list) exercises `reorderTasks`'s no-insertion path. -/
def c9CexTasks : List PTask := [⟨1, "a", 1⟩, ⟨2, "b", 2⟩]

/-- A benign 7-line reply: no forbidden-content category fires, only the
length check does. -/
def c1Benign7 : String := "a\nb\nc\nd\ne\nf\ng"

/-- An LLM client whose call throws. -/
def c10FailOracle : List Msg → Except String String := fun _ => .error ("boom")

/-- Concrete data for the in-range reorder witness: one other task before
the target. -/
def c9WitPre : List PTask := [⟨1, "a", 5⟩]

def c9WitTarget : PTask := ⟨2, "b", 7⟩

/-! ## Theorems -/

/-! ### Session store: phase invariants (C4, C5) -/

/-- Every reachable session state carries one of the five canonical phase
names. -/
theorem reachable_phase_mem (st : SessState) (h : ReachableSession st) :
    st.current_phase ∈ PHASE_ORDER := by
  induction h with
  | create => decide
  | addMsg st r c p hst ih => simpa [sessionAddMessage] using ih
  | advance st st2 hst hadv ih =>
    unfold sessionAdvancePhase at hadv
    by_cases hguard :
        (PHASE_ORDER.length : Int) ≤ jsIndexOf PHASE_ORDER st.current_phase + 1
    · simp [hguard] at hadv
    · simp only [hguard, if_false, Option.some.injEq] at hadv
      subst hadv
      have hlt : (jsIndexOf PHASE_ORDER st.current_phase + 1).toNat < 5 := by
        rw [show ((PHASE_ORDER.length : Int) = 5) from by norm_num [PHASE_ORDER]] at hguard
        omega
      have hall : ∀ i : Nat, i < 5 → PHASE_ORDER.getD i ("") ∈ PHASE_ORDER := by decide
      exact hall _ hlt

/-- C4: on every reachable session state, the advance operation either steps
`currentPhase` to its immediate successor in the fixed order (strictly
increasing its index) or returns `null` exactly in the terminal phase
`EXECUTION`; and `addMessage` never changes the phase — so no store operation
moves the phase backward. -/
theorem c4_phase_advance_forward_only (st : SessState) (hr : ReachableSession st) :
    (∀ st2, sessionAdvancePhase st = some st2 →
       specNextPhase st.current_phase = some st2.current_phase ∧
       jsIndexOf PHASE_ORDER st.current_phase < jsIndexOf PHASE_ORDER st2.current_phase) ∧
    (sessionAdvancePhase st = none ↔ st.current_phase = "EXECUTION") ∧
    (∀ r c p, (sessionAddMessage st r c p).1.current_phase = st.current_phase) := by
  have hmem := reachable_phase_mem st hr
  obtain ⟨ph, msgs⟩ := st
  simp only [PHASE_ORDER, List.mem_cons, List.not_mem_nil, or_false] at hmem
  rcases hmem with rfl | rfl | rfl | rfl | rfl
  · refine ⟨fun st2 h2 => ?_, ?_, fun r c p => rfl⟩
    · have hstep : sessionAdvancePhase ⟨"DUMP", msgs⟩ = some ⟨"CLARITY", msgs⟩ := rfl
      rw [hstep] at h2
      injection h2 with h2
      subst h2
      exact ⟨rfl, by simp [jsIndexOf, jsIndexOfAux, PHASE_ORDER]⟩
    · constructor
      · intro h2
        have hstep : sessionAdvancePhase ⟨"DUMP", msgs⟩ = some ⟨"CLARITY", msgs⟩ := rfl
        rw [hstep] at h2
        cases h2
      · intro h2
        exact absurd h2 (by simp)
  · refine ⟨fun st2 h2 => ?_, ?_, fun r c p => rfl⟩
    · have hstep : sessionAdvancePhase ⟨"CLARITY", msgs⟩ = some ⟨"DECISION", msgs⟩ := rfl
      rw [hstep] at h2
      injection h2 with h2
      subst h2
      exact ⟨rfl, by simp [jsIndexOf, jsIndexOfAux, PHASE_ORDER]⟩
    · constructor
      · intro h2
        have hstep : sessionAdvancePhase ⟨"CLARITY", msgs⟩ = some ⟨"DECISION", msgs⟩ := rfl
        rw [hstep] at h2
        cases h2
      · intro h2
        exact absurd h2 (by simp)
  · refine ⟨fun st2 h2 => ?_, ?_, fun r c p => rfl⟩
    · have hstep : sessionAdvancePhase ⟨"DECISION", msgs⟩ = some ⟨"PLANNING", msgs⟩ := rfl
      rw [hstep] at h2
      injection h2 with h2
      subst h2
      exact ⟨rfl, by simp [jsIndexOf, jsIndexOfAux, PHASE_ORDER]⟩
    · constructor
      · intro h2
        have hstep : sessionAdvancePhase ⟨"DECISION", msgs⟩ = some ⟨"PLANNING", msgs⟩ := rfl
        rw [hstep] at h2
        cases h2
      · intro h2
        exact absurd h2 (by simp)
  · refine ⟨fun st2 h2 => ?_, ?_, fun r c p => rfl⟩
    · have hstep : sessionAdvancePhase ⟨"PLANNING", msgs⟩ = some ⟨"EXECUTION", msgs⟩ := rfl
      rw [hstep] at h2
      injection h2 with h2
      subst h2
      exact ⟨rfl, by simp [jsIndexOf, jsIndexOfAux, PHASE_ORDER]⟩
    · constructor
      · intro h2
        have hstep : sessionAdvancePhase ⟨"PLANNING", msgs⟩ = some ⟨"EXECUTION", msgs⟩ := rfl
        rw [hstep] at h2
        cases h2
      · intro h2
        exact absurd h2 (by simp)
  · refine ⟨fun st2 h2 => ?_, ?_, fun r c p => rfl⟩
    · have hstep : sessionAdvancePhase ⟨"EXECUTION", msgs⟩ = none := rfl
      rw [hstep] at h2
      cases h2
    · exact ⟨fun _ => rfl, fun _ => rfl⟩

/-- Witness for C4: the theorem applied to a freshly created session. -/
theorem c4_phase_advance_forward_only_witness :
    (∀ st2, sessionAdvancePhase sessionCreate = some st2 →
       specNextPhase sessionCreate.current_phase = some st2.current_phase ∧
       jsIndexOf PHASE_ORDER sessionCreate.current_phase <
         jsIndexOf PHASE_ORDER st2.current_phase) ∧
    (sessionAdvancePhase sessionCreate = none ↔
       sessionCreate.current_phase = "EXECUTION") ∧
    (∀ r c p, (sessionAddMessage sessionCreate r c p).1.current_phase =
       sessionCreate.current_phase) :=
  c4_phase_advance_forward_only sessionCreate ReachableSession.create

/-- C5: a freshly created session starts in `DUMP`, and advancing it is
rejected with the specific phase-2-not-implemented reason, which is not the
generic cannot-advance message. -/
theorem c5_fresh_session_advance_rejected :
    sessionCreate.current_phase = "DUMP" ∧
    controllerAdvancePhase (some sessionCreate) = .error phase2NotImplementedMsg ∧
    phase2NotImplementedMsg ≠ cannotAdvanceMsg :=
  ⟨rfl, rfl, by decide⟩

/-! ### Message processing around a throwing LLM call (C10) -/

/-- C10: `processMessage` persists the user message before the LLM call, so
when the call throws, the error propagates and the stored log has gained
exactly the user message, with no paired assistant message. -/
theorem c10_user_message_persisted_on_llm_failure (st : SessState) (c : String)
    (oracle : List Msg → Except String String) (e : String)
    (h : generatePhaseResponse oracle st.current_phase
      (st.messages.map toMsg ++ [⟨"user", c⟩]) 1 = .error e) :
    processMessage (some st) c oracle =
      (.error e, some ⟨st.current_phase, st.messages ++ [⟨"user", c, st.current_phase⟩]⟩) := by
  obtain ⟨ph, msgs⟩ := st
  simp only [processMessage, sessionAddMessage]
  rw [h]

/-- Witness for C10: a throwing oracle on a fresh session. -/
theorem c10_user_message_persisted_on_llm_failure_witness :
    processMessage (some sessionCreate) ("hello") c10FailOracle =
      (.error ("boom"),
        some ⟨sessionCreate.current_phase,
          sessionCreate.messages ++ [⟨"user", "hello", sessionCreate.current_phase⟩]⟩) :=
  c10_user_message_persisted_on_llm_failure sessionCreate ("hello") c10FailOracle ("boom") rfl

/-! ### Alignment suffix (C3, C8) -/

/-- Whatever precedes it, a string that ends in the literal suffix contains
it. -/
theorem jsIncludes_append_suffix (a : String) :
    jsIncludes (a ++ ALIGNMENT_SUFFIX) ALIGNMENT_SUFFIX = true := by
  unfold jsIncludes
  rw [decide_eq_true_iff, String.data_append]
  exact (List.suffix_append _ _).isInfix

theorem jsEndsWith_includes (s t : String) (h : jsEndsWith s t = true) :
    jsIncludes s t = true := by
  unfold jsEndsWith at h
  unfold jsIncludes
  rw [decide_eq_true_iff] at h ⊢
  exact h.isInfix

theorem ensureAlignmentQuestion_of_contains (s : String)
    (h : jsIncludes s ALIGNMENT_SUFFIX = true) : ensureAlignmentQuestion s = s := by
  unfold ensureAlignmentQuestion
  simp [h]

theorem ensureAlignmentQuestion_contains (s : String) :
    jsIncludes (ensureAlignmentQuestion s) ALIGNMENT_SUFFIX = true := by
  unfold ensureAlignmentQuestion
  by_cases h : jsIncludes s ALIGNMENT_SUFFIX = true
  · simp [h]
  · simp only [h, Bool.false_eq_true, if_false]
    exact jsIncludes_append_suffix _

/-- C3 (amended): every reply the parser accepts has the alignment suffix
*contained* in its reasoning; when the raw reasoning does not already contain
the suffix, the result moreover ends with it; and the `"Focus on X"` scenario
produces exactly the claimed string. -/
theorem c3_reasoning_contains_alignment :
    (∀ data d, parseDecisionResponse data = .ok d →
       jsIncludes d.reasoning ALIGNMENT_SUFFIX = true) ∧
    (∀ s, jsIncludes s ALIGNMENT_SUFFIX = false →
       jsEndsWith (ensureAlignmentQuestion s) ALIGNMENT_SUFFIX = true) ∧
    parseDecisionResponse c3ScenarioReply =
      .ok ⟨"d", "Focus on X. Are we aligned, or should we challenge this before moving on?",
        [⟨"t", 1⟩]⟩ := by
  refine ⟨?_, ?_, rfl⟩
  · intro data d h
    rcases hv : validateDecisionStructure data with es | d0 <;>
      simp only [parseDecisionResponse, hv] at h
    · cases h
    · injection h with h
      subst h
      exact ensureAlignmentQuestion_contains _
  · intro s h
    unfold ensureAlignmentQuestion
    simp only [h, Bool.false_eq_true, if_false]
    unfold jsEndsWith
    rw [decide_eq_true_iff, String.data_append]
    exact List.suffix_append _ _

/-- Witness for C3 (amended): the scenario reply, run through the theorem. -/
theorem c3_reasoning_contains_alignment_witness :
    jsIncludes
      (Decision.reasoning ⟨"d",
        "Focus on X. Are we aligned, or should we challenge this before moving on?",
        [⟨"t", 1⟩]⟩) ALIGNMENT_SUFFIX = true :=
  c3_reasoning_contains_alignment.1 c3ScenarioReply _ rfl

/-- Counterexample to C3 as stated: a reply whose reasoning contains the
suffix mid-string is accepted unchanged, and its reasoning does not *end*
with the suffix. -/
theorem c3_counterexample :
    parseDecisionResponse c3CexReply = .ok ⟨"d", c3CexReasoning, [⟨"t", 1⟩]⟩ ∧
    jsEndsWith c3CexReasoning ALIGNMENT_SUFFIX = false :=
  ⟨rfl, by decide⟩

/-- C8: appending the alignment suffix is idempotent — a reasoning string
already ending in the exact suffix is returned unchanged, and applying the
transformation twice equals applying it once. -/
theorem c8_alignment_append_idempotent :
    (∀ s, jsEndsWith s ALIGNMENT_SUFFIX = true → ensureAlignmentQuestion s = s) ∧
    (∀ s, ensureAlignmentQuestion (ensureAlignmentQuestion s) = ensureAlignmentQuestion s) := by
  constructor
  · intro s h
    exact ensureAlignmentQuestion_of_contains s (jsEndsWith_includes s _ h)
  · intro s
    exact ensureAlignmentQuestion_of_contains _ (ensureAlignmentQuestion_contains s)

/-- Witness for C8: the suffix itself ends with the suffix and is returned
unchanged. -/
theorem c8_alignment_append_idempotent_witness :
    jsEndsWith ALIGNMENT_SUFFIX ALIGNMENT_SUFFIX = true ∧
    ensureAlignmentQuestion ALIGNMENT_SUFFIX = ALIGNMENT_SUFFIX :=
  ⟨by decide, c8_alignment_append_idempotent.1 ALIGNMENT_SUFFIX (by decide)⟩

/-! ### Input validation (C7) -/

theorem dropWhile_replicate_of_false {p : Char → Bool} {c : Char} (h : p c = false)
    (n : Nat) : (List.replicate n c).dropWhile p = List.replicate n c := by
  cases n with
  | zero => rfl
  | succ m => simp [List.replicate_succ, List.dropWhile_cons, h]

theorem jsTrimList_replicate_a (n : Nat) :
    jsTrimList (List.replicate n 'a') = List.replicate n 'a' := by
  unfold jsTrimList
  rw [dropWhile_replicate_of_false (by decide), List.reverse_replicate,
    dropWhile_replicate_of_false (by decide), List.reverse_replicate]

theorem collapseWsGo_replicate_a (b : Bool) (n : Nat) :
    collapseWsGo b (List.replicate n 'a') = List.replicate n 'a' := by
  induction n generalizing b with
  | zero => rfl
  | succ m ih =>
    have ha : jsWhitespaceChar 'a' = false := by decide
    simp [List.replicate_succ, collapseWsGo, ha, ih]

theorem filter_replicate_of_true {p : Char → Bool} {c : Char} (h : p c = true)
    (n : Nat) : (List.replicate n c).filter p = List.replicate n c := by
  induction n with
  | zero => rfl
  | succ m ih => simp [List.replicate_succ, List.filter_cons, h, ih]

theorem normalizeInput_replicate_a (n : Nat) :
    normalizeInput (.vstr (String.mk (List.replicate (n + 1) 'a'))) =
      String.mk (List.replicate (n + 1) 'a') := by
  have hne : ¬ (String.mk (List.replicate (n + 1) 'a') = "") := by
    intro h
    have := congrArg String.data h
    simp at this
  simp only [normalizeInput, hne, if_false]
  rw [jsTrimList_replicate_a, collapseWsGo_replicate_a,
    filter_replicate_of_true (by decide), List.map_replicate]
  rfl

/-- `validateInput` on a nonempty string, written without evaluating the
string (so large concrete inputs can be handled by rewriting). -/
theorem validateInput_vstr (s : String) (hs : ¬ s = "") :
    validateInput (.vstr s) =
      ((if (normalizeInput (.vstr s)).length < 3 then [tooShortMsg] else []) ++
         (if (normalizeInput (.vstr s)).length > 10000 then [tooLongMsg] else []) ++
         (if !((normalizeInput (.vstr s)).data.any Char.isAlpha) then [noTextMsg] else [])
       |> fun errors =>
         ⟨errors.isEmpty, errors,
           if errors.isEmpty then some (normalizeInput (.vstr s)) else none⟩) := by
  have hf : jsFalsy (.vstr s) = false := by simp [jsFalsy, hs]
  simp only [validateInput, hf]
  rfl

theorem c7_long_input_too_long :
    validateInput (.vstr c7LongInput) = ⟨false, [tooLongMsg], none⟩ := by
  have h11 : (11000 : Nat) = 10999 + 1 := by norm_num
  have hnorm : normalizeInput (.vstr c7LongInput) = c7LongInput := by
    show normalizeInput (.vstr (String.mk (List.replicate 11000 'a'))) = _
    rw [h11]
    exact normalizeInput_replicate_a 10999
  have hlen : c7LongInput.length = 11000 := List.length_replicate 11000 'a'
  have hne : ¬ c7LongInput = "" := by
    intro h
    rw [h] at hlen
    have h0 : (0 : Nat) = 11000 := hlen
    exact absurd h0 (by decide)
  have hletters : c7LongInput.data.any Char.isAlpha = true := by
    show (List.replicate 11000 'a').any Char.isAlpha = true
    rw [h11, List.replicate_succ, List.any_cons,
      show Char.isAlpha 'a' = true from rfl, Bool.true_or]
  rw [validateInput_vstr _ hne, hnorm, hlen, hletters]
  norm_num

/-- C7 (amended): falsy inputs — including the empty string — are rejected
with the required-input error before any other check; truthy non-strings with
the type error; for truthy strings the too-short / too-long / no-text errors
fire exactly on their length and letter conditions, `valid` holds exactly
when no error fired, and `normalized` is returned exactly when valid.  The
`"hi"` and 11000-character scenarios behave as claimed. -/
theorem c7_validate_input_errors :
    (∀ v, jsFalsy v = true → validateInput v = ⟨false, [inputRequiredMsg], none⟩) ∧
    (∀ v, jsFalsy v = false → isJsString v = false →
       validateInput v = ⟨false, [inputTypeMsg], none⟩) ∧
    (∀ s, jsFalsy (JSVal.vstr s) = false →
       ((tooShortMsg ∈ (validateInput (.vstr s)).errors ↔
          (normalizeInput (.vstr s)).length < 3) ∧
        (tooLongMsg ∈ (validateInput (.vstr s)).errors ↔
          10000 < (normalizeInput (.vstr s)).length) ∧
        (noTextMsg ∈ (validateInput (.vstr s)).errors ↔
          (normalizeInput (.vstr s)).data.any Char.isAlpha = false) ∧
        ((validateInput (.vstr s)).valid = true ↔ (validateInput (.vstr s)).errors = []) ∧
        ((validateInput (.vstr s)).normalized =
          if (validateInput (.vstr s)).valid then some (normalizeInput (.vstr s))
          else none))) ∧
    validateInput (.vstr ("hi")) = ⟨false, [tooShortMsg], none⟩ ∧
    validateInput (.vstr c7LongInput) = ⟨false, [tooLongMsg], none⟩ := by
  refine ⟨?_, ?_, ?_, by decide, c7_long_input_too_long⟩
  · intro v h
    simp [validateInput, h]
  · intro v h1 h2
    simp [validateInput, h1, h2]
  · intro s hs
    have hne : ¬ s = "" := by simpa [jsFalsy] using hs
    rw [validateInput_vstr s hne]
    by_cases h3 : (normalizeInput (.vstr s)).length < 3 <;>
      by_cases h4 : 10000 < (normalizeInput (.vstr s)).length <;>
        by_cases h5 : (normalizeInput (.vstr s)).data.any Char.isAlpha = false <;>
          simp [h3, h4, h5, Bool.not_eq_false, Bool.not_eq_true,
            tooShortMsg, tooLongMsg, noTextMsg]

/-- Witness for C7 (amended): the falsy branch applied to `null`. -/
theorem c7_validate_input_errors_witness :
    jsFalsy JSVal.vnull = true ∧
    validateInput JSVal.vnull = ⟨false, [inputRequiredMsg], none⟩ :=
  ⟨by decide, c7_validate_input_errors.1 JSVal.vnull (by decide)⟩

/-- Counterexample to C7 as stated: the empty string normalizes to length
`0 < 3`, yet `validateInput` rejects it with the required-input error, not
the too-short error the claim predicts for every normalized length `< 3`. -/
theorem c7_counterexample :
    (normalizeInput (.vstr (""))).length < 3 ∧
    validateInput (.vstr ("")) = ⟨false, [inputRequiredMsg], none⟩ ∧
    tooShortMsg ∉ (validateInput (.vstr (""))).errors := by decide

/-! ### Task normalization: stable sort and dense priorities (C2) -/

theorem insertByPriority_length (t : NTask) (l : List NTask) :
    (insertByPriority t l).length = l.length + 1 := by
  induction l with
  | nil => rfl
  | cons u us ih =>
    unfold insertByPriority
    by_cases h : u.priority < t.priority
    · simp [h, ih]
    · simp [h]

theorem insertByPriority_perm (t : NTask) (l : List NTask) :
    List.Perm (insertByPriority t l) (t :: l) := by
  induction l with
  | nil => rfl
  | cons u us ih =>
    unfold insertByPriority
    by_cases h : u.priority < t.priority
    · simp only [h, if_true]
      exact (ih.cons u).trans (List.Perm.swap t u us)
    · simp [h]

theorem stableSortByPriority_perm (l : List NTask) : List.Perm (stableSortByPriority l) l := by
  induction l with
  | nil => rfl
  | cons t ts ih =>
    exact (insertByPriority_perm t (stableSortByPriority ts)).trans (ih.cons t)

theorem insertByPriority_sorted (t : NTask) (l : List NTask)
    (h : l.Pairwise (fun a b => a.priority ≤ b.priority)) :
    (insertByPriority t l).Pairwise (fun a b => a.priority ≤ b.priority) := by
  induction l with
  | nil => simp [insertByPriority]
  | cons u us ih =>
    rcases List.pairwise_cons.mp h with ⟨hu, hus⟩
    unfold insertByPriority
    by_cases hc : u.priority < t.priority
    · simp only [hc, if_true]
      refine List.pairwise_cons.mpr ⟨?_, ih hus⟩
      intro b hb
      have hb2 : b ∈ t :: us := (insertByPriority_perm t us).mem_iff.mp hb
      rcases List.mem_cons.mp hb2 with rfl | hb3
      · exact le_of_lt hc
      · exact hu b hb3
    · simp only [hc, if_false]
      refine List.pairwise_cons.mpr ⟨?_, h⟩
      intro b hb
      rcases List.mem_cons.mp hb with hb | hb
      · subst hb
        exact le_of_not_lt hc
      · exact le_trans (le_of_not_lt hc) (hu b hb)

theorem stableSortByPriority_sorted (l : List NTask) :
    (stableSortByPriority l).Pairwise (fun a b => a.priority ≤ b.priority) := by
  induction l with
  | nil => simp [stableSortByPriority]
  | cons t ts ih => exact insertByPriority_sorted t _ ih

/-- Stability, filter form: inserting an element never reorders the
equal-priority elements already present, and lands before all of them. -/
theorem insertByPriority_filter (t : NTask) (l : List NTask) (k : Int) :
    (insertByPriority t l).filter (fun u => u.priority == k) =
      if t.priority = k then t :: l.filter (fun u => u.priority == k)
      else l.filter (fun u => u.priority == k) := by
  induction l with
  | nil =>
    by_cases h : t.priority = k <;> simp [insertByPriority, List.filter_cons, h]
  | cons u us ih =>
    unfold insertByPriority
    by_cases hc : u.priority < t.priority
    · simp only [hc, if_true, List.filter_cons]
      by_cases hu : u.priority = k
      · have ht : ¬ t.priority = k := by
          intro hk
          rw [hk] at hc
          rw [hu] at hc
          exact lt_irrefl k hc
        simp [hu, ht] at ih ⊢
        rw [ih]
      · by_cases ht : t.priority = k <;> simp [hu, ht] at ih ⊢ <;> rw [ih]
    · simp only [hc, if_false, List.filter_cons]
      by_cases ht : t.priority = k <;> by_cases hu : u.priority = k <;>
        simp [ht, hu, List.filter_cons]

theorem stableSortByPriority_filter (l : List NTask) (k : Int) :
    (stableSortByPriority l).filter (fun u => u.priority == k) =
      l.filter (fun u => u.priority == k) := by
  induction l with
  | nil => rfl
  | cons t ts ih =>
    show (insertByPriority t (stableSortByPriority ts)).filter _ = _
    rw [insertByPriority_filter, List.filter_cons]
    by_cases ht : t.priority = k <;> simp [ht, ih]

theorem reindexTasks_length (n : Int) (l : List NTask) :
    (reindexTasks n l).length = l.length := by
  induction l generalizing n with
  | nil => rfl
  | cons t ts ih => simp [reindexTasks, ih]

/-- Dense renumbering: the `i`-th output task has priority `n + i`. -/
theorem reindexTasks_get (n : Int) (l : List NTask) (i : Nat)
    (h : i < (reindexTasks n l).length) :
    ((reindexTasks n l).get ⟨i, h⟩).priority = n + i := by
  induction l generalizing n i with
  | nil => cases h
  | cons t ts ih =>
    cases i with
    | zero => simp [reindexTasks]
    | succ j =>
      have hj : j < (reindexTasks (n + 1) ts).length := by
        have := h
        simp only [reindexTasks, List.length_cons] at this
        omega
      have := ih (n + 1) j hj
      simp only [reindexTasks, List.get_cons_succ, this]
      push_cast
      ring

theorem normalizeTasks_length (ts : List RawTask) :
    (normalizeTasks ts).length = ts.length := by
  unfold normalizeTasks
  rw [reindexTasks_length, (stableSortByPriority_perm _).length_eq, List.length_map]

/-- C2 (amended): for every task list — in particular any list of 1 to 5
tasks that passes schema validation — the parser's normalization returns
tasks whose priorities are exactly `1..N` in order; the task *order* is the
unique stable ascending order of the `parseInt`-truncated declared
priorities: some intermediate list sorts the trimmed tasks by truncated
priority, is a permutation of them, keeps each equal-truncation class in
original order, and is then densely renumbered. -/
theorem c2_normalize_tasks_dense_stable (ts : List RawTask) :
    ((normalizeTasks ts).length = ts.length ∧
      ∀ i (h : i < (normalizeTasks ts).length),
        ((normalizeTasks ts).get ⟨i, h⟩).priority = i + 1) ∧
    ∃ mid : List NTask,
      normalizeTasks ts = reindexTasks 1 mid ∧
      List.Perm mid (ts.map trimmedTask) ∧
      mid.Pairwise (fun a b => a.priority ≤ b.priority) ∧
      ∀ k : Int, mid.filter (fun u => u.priority == k) =
        (ts.map trimmedTask).filter (fun u => u.priority == k) := by
  refine ⟨⟨normalizeTasks_length ts, ?_⟩,
    stableSortByPriority (ts.map trimmedTask), rfl,
    stableSortByPriority_perm _, stableSortByPriority_sorted _,
    fun k => stableSortByPriority_filter _ k⟩
  intro i h
  have hg := reindexTasks_get 1 (stableSortByPriority (ts.map trimmedTask)) i h
  exact hg.trans (by omega)

/-- Witness for C2 (amended): a concrete two-task list through the theorem. -/
theorem c2_normalize_tasks_dense_stable_witness :
    ((normalizeTasks c2CexTasks).length = c2CexTasks.length ∧
      ∀ i (h : i < (normalizeTasks c2CexTasks).length),
        ((normalizeTasks c2CexTasks).get ⟨i, h⟩).priority = i + 1) ∧
    ∃ mid : List NTask,
      normalizeTasks c2CexTasks = reindexTasks 1 mid ∧
      List.Perm mid (c2CexTasks.map trimmedTask) ∧
      mid.Pairwise (fun a b => a.priority ≤ b.priority) ∧
      ∀ k : Int, mid.filter (fun u => u.priority == k) =
        (c2CexTasks.map trimmedTask).filter (fun u => u.priority == k) :=
  c2_normalize_tasks_dense_stable c2CexTasks

/-- Counterexample to C2 as stated: declared priorities 2.5 and 2.3 pass
schema validation, but the parser orders by the `parseInt` truncations (a
tie, so input order is kept), not by the declared values as the claim says:
the accepted reply keeps task `"A"` first, while a stable sort on declared
priorities would put `"B"` first. -/
theorem c2_counterexample :
    parseDecisionResponse c2CexReply =
      .ok ⟨"d", ensureAlignmentQuestion ("r"), [⟨"A", 1⟩, ⟨"B", 2⟩]⟩ ∧
    specNormalizeTasks c2CexTasks = [⟨"B", 1⟩, ⟨"A", 2⟩] ∧
    normalizeTasks c2CexTasks ≠ specNormalizeTasks c2CexTasks :=
  ⟨rfl, by decide, by decide⟩

/-! ### Manual reordering of persisted tasks (C9) -/

/-- Once the counter has passed `newPriority`, the loop never inserts: it
only renumbers. -/
theorem reorderAux_no_insert (target : PTask) (newP : Int) (others : List PTask)
    (c : Int) (h : newP < c) :
    reorderAux target newP others c = reindexPTasks c others := by
  induction others generalizing c with
  | nil =>
    have hne : ¬ c = newP := by omega
    simp [reorderAux, reindexPTasks, hne]
  | cons o os ih =>
    have hne : ¬ c = newP := by omega
    unfold reorderAux
    rw [if_neg hne]
    simp [reindexPTasks, ih (c + 1) (by omega)]

/-- While `c ≤ newPriority ≤ c + |others|`, the loop inserts the target at
offset `newPriority - c` and renumbers everything from `c` on. -/
theorem reorderAux_insert (target : PTask) (newP : Int) (others : List PTask)
    (c : Int) (h1 : c ≤ newP) (h2 : newP ≤ c + others.length) :
    reorderAux target newP others c =
      reindexPTasks c (others.take (newP - c).toNat ++
        target :: others.drop (newP - c).toNat) := by
  induction others generalizing c with
  | nil =>
    have hc : c = newP := by simp at h2; omega
    subst hc
    simp [reorderAux, reindexPTasks]
  | cons o os ih =>
    by_cases hc : c = newP
    · subst hc
      unfold reorderAux
      rw [if_pos rfl]
      have hz : (c - c).toNat = 0 := by omega
      rw [hz, List.take_zero, List.drop_zero]
      rw [reorderAux_no_insert target c os (c + 2) (by omega)]
      simp only [reindexPTasks]
      rw [show c + 1 + 1 = c + 2 from by ring]
    · have hlt : c < newP := by omega
      unfold reorderAux
      rw [if_neg hc]
      have hlen : newP ≤ c + 1 + os.length := by
        simp only [List.length_cons] at h2
        push_cast at h2 ⊢
        omega
      rw [ih (c + 1) (by omega) hlen]
      have htn : (newP - c).toNat = (newP - (c + 1)).toNat + 1 := by omega
      rw [htn, List.take_succ_cons, List.drop_succ_cons]
      rfl

theorem find?_append_first (pre : List PTask) (target : PTask) (post : List PTask)
    (taskId : Nat) (hpre : ∀ x ∈ pre, x.id ≠ taskId) (ht : target.id = taskId) :
    (pre ++ target :: post).find? (fun t => t.id == taskId) = some target := by
  induction pre with
  | nil =>
    simp only [List.nil_append]
    exact List.find?_cons_of_pos _ (by simp [ht])
  | cons x xs ih =>
    have hx : ¬ x.id = taskId := hpre x (List.mem_cons_self x xs)
    rw [List.cons_append, List.find?_cons_of_neg _ (by simp [hx])]
    exact ih (fun y hy => hpre y (List.mem_cons_of_mem x hy))

theorem filter_removes_target (pre : List PTask) (target : PTask) (post : List PTask)
    (taskId : Nat) (hpre : ∀ x ∈ pre, x.id ≠ taskId) (hpost : ∀ x ∈ post, x.id ≠ taskId)
    (ht : target.id = taskId) :
    (pre ++ target :: post).filter (fun t => t.id != taskId) = pre ++ post := by
  rw [List.filter_append, List.filter_cons]
  have h1 : pre.filter (fun t => t.id != taskId) = pre :=
    List.filter_eq_self.mpr (fun x hx => by simp [hpre x hx])
  have h2 : post.filter (fun t => t.id != taskId) = post :=
    List.filter_eq_self.mpr (fun x hx => by simp [hpost x hx])
  simp [h1, h2, ht]

theorem reindexPTasks_length (n : Int) (l : List PTask) :
    (reindexPTasks n l).length = l.length := by
  induction l generalizing n with
  | nil => rfl
  | cons t ts ih => simp [reindexPTasks, ih]

theorem reindexPTasks_get (n : Int) (l : List PTask) (i : Nat)
    (h : i < (reindexPTasks n l).length) :
    ((reindexPTasks n l).get ⟨i, h⟩).priority = n + i := by
  induction l generalizing n i with
  | nil => cases h
  | cons t ts ih =>
    cases i with
    | zero => simp [reindexPTasks]
    | succ j =>
      have hj : j < (reindexPTasks (n + 1) ts).length := by
        have := h
        simp only [reindexPTasks, List.length_cons] at this
        omega
      have hg := ih (n + 1) j hj
      simp only [reindexPTasks, List.get_cons_succ, hg]
      push_cast
      ring

theorem reindexPTasks_map_idtitle (n : Int) (l : List PTask) :
    (reindexPTasks n l).map (fun t => (t.id, t.title)) =
      l.map (fun t => (t.id, t.title)) := by
  induction l generalizing n with
  | nil => rfl
  | cons t ts ih => simp [reindexPTasks, ih]

/-- C9 (amended): when the target id occurs exactly once and
`1 ≤ newPriority ≤ N`, `reorderTasks` removes the target, reinserts it at
position `newPriority`, renumbers everything `1..N`, preserves the relative
order of the others, and keeps exactly the input's tasks (none lost or
duplicated).  (For out-of-range `newPriority` the target is dropped — see
the counterexample.) -/
theorem c9_reorder_in_range (pre post : List PTask) (target : PTask) (taskId : Nat)
    (newP : Int) (htid : target.id = taskId)
    (hpre : ∀ x ∈ pre, x.id ≠ taskId) (hpost : ∀ x ∈ post, x.id ≠ taskId)
    (h1 : 1 ≤ newP) (h2 : newP ≤ (pre ++ target :: post).length) :
    reorderTasks (pre ++ target :: post) taskId newP =
      reindexPTasks 1 ((pre ++ post).take (newP - 1).toNat ++
        target :: (pre ++ post).drop (newP - 1).toNat) ∧
    List.Perm
      ((reorderTasks (pre ++ target :: post) taskId newP).map (fun t => (t.id, t.title)))
      ((pre ++ target :: post).map (fun t => (t.id, t.title))) ∧
    (reorderTasks (pre ++ target :: post) taskId newP).length =
      (pre ++ target :: post).length ∧
    ∀ i (h : i < (reorderTasks (pre ++ target :: post) taskId newP).length),
      ((reorderTasks (pre ++ target :: post) taskId newP).get ⟨i, h⟩).priority = i + 1 := by
  have hfind := find?_append_first pre target post taskId hpre htid
  have hfilter := filter_removes_target pre target post taskId hpre hpost htid
  have hlen2 : newP ≤ 1 + (pre ++ post).length := by
    have := h2
    simp only [List.length_append, List.length_cons] at this ⊢
    push_cast at this ⊢
    omega
  have hchar : reorderTasks (pre ++ target :: post) taskId newP =
      reindexPTasks 1 ((pre ++ post).take (newP - 1).toNat ++
        target :: (pre ++ post).drop (newP - 1).toNat) := by
    unfold reorderTasks
    rw [hfind, hfilter]
    exact reorderAux_insert target newP (pre ++ post) 1 h1 hlen2
  have hmid : List.Perm
      ((pre ++ post).take (newP - 1).toNat ++ target :: (pre ++ post).drop (newP - 1).toNat)
      (pre ++ target :: post) := by
    refine (List.perm_middle).trans ?_
    rw [List.take_append_drop]
    exact (List.perm_middle).symm
  have hreslen : (reorderTasks (pre ++ target :: post) taskId newP).length =
      (pre ++ target :: post).length := by
    rw [hchar, reindexPTasks_length, hmid.length_eq]
  refine ⟨hchar, ?_, hreslen, ?_⟩
  · rw [hchar, reindexPTasks_map_idtitle]
    exact hmid.map _
  · intro i h
    rw [List.get_of_eq hchar ⟨i, h⟩]
    exact (reindexPTasks_get 1 _ i _).trans (by omega)

/-- Witness for C9 (amended): moving task 2 of a two-task list to priority 1. -/
theorem c9_reorder_in_range_witness :
    reorderTasks (c9WitPre ++ c9WitTarget :: []) 2 1 =
      reindexPTasks 1 ((c9WitPre ++ []).take ((1 : Int) - 1).toNat ++
        c9WitTarget :: (c9WitPre ++ []).drop ((1 : Int) - 1).toNat) ∧
    List.Perm
      ((reorderTasks (c9WitPre ++ c9WitTarget :: []) 2 1).map (fun t => (t.id, t.title)))
      ((c9WitPre ++ c9WitTarget :: []).map (fun t => (t.id, t.title))) ∧
    (reorderTasks (c9WitPre ++ c9WitTarget :: []) 2 1).length =
      (c9WitPre ++ c9WitTarget :: []).length ∧
    ∀ i (h : i < (reorderTasks (c9WitPre ++ c9WitTarget :: []) 2 1).length),
      ((reorderTasks (c9WitPre ++ c9WitTarget :: []) 2 1).get ⟨i, h⟩).priority = i + 1 :=
  c9_reorder_in_range c9WitPre [] c9WitTarget 2 1 rfl
    (by decide) (by decide) (by decide) (by decide)

/-- Counterexample to C9 as stated: with two tasks and `newPriority = 3`
(out of range), the target task is silently dropped — the result is not a
permutation of the input. -/
theorem c9_counterexample :
    reorderTasks c9CexTasks 1 3 = [⟨2, "b", 1⟩] ∧
    (reorderTasks c9CexTasks 1 3).length ≠ c9CexTasks.length ∧
    (∀ t ∈ reorderTasks c9CexTasks 1 3, t.id ≠ 1) := by decide

/-! ### Confidence scoring (C6): bridges from the reducible arithmetic to the
field operations, factor bounds, and the level thresholds -/

theorem mkRat_zero_one : mkRat 0 1 = (0 : ℚ) := by
  rw [Rat.mkRat_eq_div]
  norm_num

theorem mkRat_one_one : mkRat 1 1 = (1 : ℚ) := by
  rw [Rat.mkRat_eq_div]
  norm_num

theorem mkRat_one_two : mkRat 1 2 = (1 / 2 : ℚ) := by
  rw [Rat.mkRat_eq_div]
  norm_num

theorem qadd_eq (a b : ℚ) : qadd a b = a + b := by
  unfold qadd
  have ha : ((a.den : ℚ)) ≠ 0 := by
    exact_mod_cast a.den_nz
  have hb : ((b.den : ℚ)) ≠ 0 := by
    exact_mod_cast b.den_nz
  rw [Rat.mkRat_eq_div]
  conv_rhs => rw [← Rat.num_div_den a, ← Rat.num_div_den b]
  push_cast
  field_simp

theorem qsub_eq (a b : ℚ) : qsub a b = a - b := by
  unfold qsub
  have ha : ((a.den : ℚ)) ≠ 0 := by
    exact_mod_cast a.den_nz
  have hb : ((b.den : ℚ)) ≠ 0 := by
    exact_mod_cast b.den_nz
  rw [Rat.mkRat_eq_div]
  conv_rhs => rw [← Rat.num_div_den a, ← Rat.num_div_den b]
  push_cast
  field_simp
  ring

theorem qmul_eq (a b : ℚ) : qmul a b = a * b := by
  unfold qmul
  have ha : ((a.den : ℚ)) ≠ 0 := by
    exact_mod_cast a.den_nz
  have hb : ((b.den : ℚ)) ≠ 0 := by
    exact_mod_cast b.den_nz
  rw [Rat.mkRat_eq_div]
  conv_rhs => rw [← Rat.num_div_den a, ← Rat.num_div_den b]
  push_cast
  field_simp

theorem qdivNat_eq (a : ℚ) (n : Nat) (hn : n ≠ 0) : qdivNat a n = a / n := by
  unfold qdivNat
  have ha : ((a.den : ℚ)) ≠ 0 := by
    exact_mod_cast a.den_nz
  have hn2 : ((n : ℚ)) ≠ 0 := by
    exact_mod_cast hn
  rw [Rat.mkRat_eq_div]
  conv_rhs => rw [← Rat.num_div_den a]
  push_cast
  field_simp

theorem clamp01_bounds (x : ℚ) : 0 ≤ clamp01 x ∧ clamp01 x ≤ 1 := by
  unfold clamp01 jsMaxQ jsMinQ
  rw [mkRat_zero_one, mkRat_one_one]
  split_ifs with h1 h2 h3 <;> constructor <;> linarith

theorem calculateInputClarity_bounds (i : Option String) :
    0 ≤ calculateInputClarity i ∧ calculateInputClarity i ≤ 1 := by
  unfold calculateInputClarity
  rcases i with _ | s
  · rw [mkRat_one_two]
    norm_num
  · by_cases hs : s = ""
    · simp only [hs, if_true]
      rw [mkRat_one_two]
      norm_num
    · simp only [hs, if_false]
      exact clamp01_bounds _

theorem calculateDecisionSpecificity_bounds (d : String) :
    0 ≤ calculateDecisionSpecificity d ∧ calculateDecisionSpecificity d ≤ 1 := by
  unfold calculateDecisionSpecificity
  by_cases hd : d = ""
  · simp only [hd, if_true]
    rw [mkRat_zero_one]
    norm_num
  · simp only [hd, if_false]
    exact clamp01_bounds _

theorem calculateTaskActionability_bounds (ts : List NTask) :
    0 ≤ calculateTaskActionability ts ∧ calculateTaskActionability ts ≤ 1 := by
  unfold calculateTaskActionability
  by_cases h : ts.isEmpty
  · simp only [h, if_true]
    rw [mkRat_zero_one]
    norm_num
  · simp only [h, if_false]
    exact clamp01_bounds _

theorem calculateReasoningQuality_bounds (r : String) :
    0 ≤ calculateReasoningQuality r ∧ calculateReasoningQuality r ≤ 1 := by
  unfold calculateReasoningQuality
  by_cases hr : r = ""
  · simp only [hr, if_true]
    rw [mkRat_zero_one]
    norm_num
  · simp only [hr, if_false]
    exact clamp01_bounds _

theorem contextAvailability_bounds (b : Bool) :
    0 ≤ (if b then mkRat 1 10 else mkRat 0 1) ∧
      (if b then mkRat 1 10 else mkRat 0 1) ≤ 1 := by
  have h10 : mkRat 1 10 = (1 / 10 : ℚ) := by
    rw [Rat.mkRat_eq_div]
    norm_num
  cases b
  · constructor <;> simp [mkRat_zero_one]
  · rw [if_pos rfl, h10]
    norm_num

/-- `totalScore` as a plain weighted sum with the source's weights. -/
theorem confidenceTotal_eq (f : ConfidenceFactors) :
    confidenceTotal f =
      1 / 5 * f.inputClarity + 1 / 4 * f.decisionSpecificity +
      1 / 4 * f.taskActionability + 1 / 5 * f.reasoningQuality +
      1 / 10 * f.contextAvailability := by
  unfold confidenceTotal
  rw [qadd_eq, qadd_eq, qadd_eq, qadd_eq, qmul_eq, qmul_eq, qmul_eq, qmul_eq, qmul_eq]
  rw [show mkRat 2 10 = (1 / 5 : ℚ) from by rw [Rat.mkRat_eq_div]; norm_num,
    show mkRat 25 100 = (1 / 4 : ℚ) from by rw [Rat.mkRat_eq_div]; norm_num,
    show mkRat 1 10 = (1 / 10 : ℚ) from by rw [Rat.mkRat_eq_div]; norm_num]
  ring

theorem confidenceTotal_bounds (d : ScoredDecision) (ctx : ScoreContext) :
    0 ≤ confidenceTotal (confidenceFactors d ctx) ∧
      confidenceTotal (confidenceFactors d ctx) ≤ 1 := by
  obtain ⟨ui, hc⟩ := ctx
  obtain ⟨h1a, h1b⟩ := calculateInputClarity_bounds ui
  obtain ⟨h2a, h2b⟩ := calculateDecisionSpecificity_bounds d.decision
  obtain ⟨h3a, h3b⟩ := calculateTaskActionability_bounds d.tasks
  obtain ⟨h4a, h4b⟩ := calculateReasoningQuality_bounds d.reasoning
  rw [confidenceTotal_eq]
  simp only [confidenceFactors]
  have h10 : mkRat 1 10 = (1 / 10 : ℚ) := by
    rw [Rat.mkRat_eq_div]
    norm_num
  cases hc
  · simp only [Bool.false_eq_true, if_false, mkRat_zero_one]
    constructor <;> linarith
  · simp only [if_true, h10]
    constructor <;> linarith

theorem rat_floor_eq_int_floor (q : ℚ) : Rat.floor q = ⌊q⌋ := rfl

theorem jsMathRound_eq (x : ℚ) : jsMathRound x = ⌊x + 1 / 2⌋ := by
  unfold jsMathRound
  rw [qadd_eq, mkRat_one_two, rat_floor_eq_int_floor]

theorem overall_eq (d : ScoredDecision) (ctx : ScoreContext) :
    (calculateConfidenceScore d ctx).overall =
      ((⌊confidenceTotal (confidenceFactors d ctx) * 100 + 1 / 2⌋ : Int) : ℚ) / 100 := by
  unfold calculateConfidenceScore
  simp only
  rw [Rat.mkRat_eq_div, jsMathRound_eq, qmul_eq,
    show mkRat 100 1 = (100 : ℚ) from by rw [Rat.mkRat_eq_div]; norm_num]
  norm_num

theorem level_eq (d : ScoredDecision) (ctx : ScoreContext) :
    (calculateConfidenceScore d ctx).level =
      getConfidenceLevel (confidenceTotal (confidenceFactors d ctx)) := rfl

theorem getConfidenceLevel_iff (t : ℚ) :
    (getConfidenceLevel t = "high" ↔ 4 / 5 ≤ t) ∧
    (getConfidenceLevel t = "medium" ↔ 3 / 5 ≤ t ∧ t < 4 / 5) ∧
    (getConfidenceLevel t = "low" ↔ 2 / 5 ≤ t ∧ t < 3 / 5) ∧
    (getConfidenceLevel t = "very_low" ↔ t < 2 / 5) := by
  unfold getConfidenceLevel
  rw [show mkRat 4 5 = (4 / 5 : ℚ) from by rw [Rat.mkRat_eq_div]; norm_num,
    show mkRat 3 5 = (3 / 5 : ℚ) from by rw [Rat.mkRat_eq_div]; norm_num,
    show mkRat 2 5 = (2 / 5 : ℚ) from by rw [Rat.mkRat_eq_div]; norm_num]
  split_ifs with h1 h2 h3
  · exact ⟨⟨fun _ => h1, fun _ => rfl⟩,
      ⟨fun h => absurd h (by decide), fun hm => (by linarith [hm.2] : False).elim⟩,
      ⟨fun h => absurd h (by decide), fun hl => (by linarith [hl.2] : False).elim⟩,
      ⟨fun h => absurd h (by decide), fun hv => (by linarith : False).elim⟩⟩
  · exact ⟨⟨fun h => absurd h (by decide), fun hh => absurd hh h1⟩,
      ⟨fun _ => ⟨h2, not_le.mp h1⟩, fun _ => rfl⟩,
      ⟨fun h => absurd h (by decide), fun hl => (by linarith [hl.2] : False).elim⟩,
      ⟨fun h => absurd h (by decide), fun hv => (by linarith : False).elim⟩⟩
  · exact ⟨⟨fun h => absurd h (by decide), fun hh => absurd hh h1⟩,
      ⟨fun h => absurd h (by decide), fun hm => absurd hm.1 h2⟩,
      ⟨fun _ => ⟨h3, not_le.mp h2⟩, fun _ => rfl⟩,
      ⟨fun h => absurd h (by decide), fun hv => (by linarith : False).elim⟩⟩
  · exact ⟨⟨fun h => absurd h (by decide), fun hh => absurd hh h1⟩,
      ⟨fun h => absurd h (by decide), fun hm => absurd hm.1 h2⟩,
      ⟨fun h => absurd h (by decide), fun hl => absurd hl.1 h3⟩,
      ⟨fun _ => not_le.mp h3, fun _ => rfl⟩⟩

/-- C6 (amended): `overall` always lies in `[0,1]` and equals the weighted
sum — weights 0.2, 0.25, 0.25, 0.2, 0.1 — rounded to 2 decimals
(half-up); but `level` is derived from the *unrounded* weighted sum, with
thresholds 0.8 / 0.6 / 0.4 applied to it exactly. -/
theorem c6_confidence_overall_and_level (d : ScoredDecision) (ctx : ScoreContext) :
    (0 ≤ (calculateConfidenceScore d ctx).overall ∧
      (calculateConfidenceScore d ctx).overall ≤ 1) ∧
    (calculateConfidenceScore d ctx).overall =
      ((⌊confidenceTotal (confidenceFactors d ctx) * 100 + 1 / 2⌋ : Int) : ℚ) / 100 ∧
    confidenceTotal (confidenceFactors d ctx) =
      1 / 5 * (confidenceFactors d ctx).inputClarity +
      1 / 4 * (confidenceFactors d ctx).decisionSpecificity +
      1 / 4 * (confidenceFactors d ctx).taskActionability +
      1 / 5 * (confidenceFactors d ctx).reasoningQuality +
      1 / 10 * (confidenceFactors d ctx).contextAvailability ∧
    ((calculateConfidenceScore d ctx).level = "high" ↔
      4 / 5 ≤ confidenceTotal (confidenceFactors d ctx)) ∧
    ((calculateConfidenceScore d ctx).level = "medium" ↔
      3 / 5 ≤ confidenceTotal (confidenceFactors d ctx) ∧
        confidenceTotal (confidenceFactors d ctx) < 4 / 5) ∧
    ((calculateConfidenceScore d ctx).level = "low" ↔
      2 / 5 ≤ confidenceTotal (confidenceFactors d ctx) ∧
        confidenceTotal (confidenceFactors d ctx) < 3 / 5) ∧
    ((calculateConfidenceScore d ctx).level = "very_low" ↔
      confidenceTotal (confidenceFactors d ctx) < 2 / 5) := by
  obtain ⟨ht0, ht1⟩ := confidenceTotal_bounds d ctx
  have hov := overall_eq d ctx
  have hlev := level_eq d ctx
  obtain ⟨i1, i2, i3, i4⟩ :=
    getConfidenceLevel_iff (confidenceTotal (confidenceFactors d ctx))
  refine ⟨?_, hov, confidenceTotal_eq _, ?_, ?_, ?_, ?_⟩
  · rw [hov]
    have hf0 : (0 : Int) ≤ ⌊confidenceTotal (confidenceFactors d ctx) * 100 + 1 / 2⌋ :=
      Int.floor_nonneg.mpr (by linarith)
    have hf1 : ⌊confidenceTotal (confidenceFactors d ctx) * 100 + 1 / 2⌋ ≤ 100 := by
      have hlt : ⌊confidenceTotal (confidenceFactors d ctx) * 100 + 1 / 2⌋ < 101 :=
        Int.floor_lt.mpr (by push_cast; linarith)
      omega
    constructor
    · apply div_nonneg _ (by norm_num)
      exact_mod_cast hf0
    · rw [div_le_one (by norm_num)]
      exact_mod_cast hf1
  · rw [hlev]
    exact i1
  · rw [hlev]
    exact i2
  · rw [hlev]
    exact i3
  · rw [hlev]
    exact i4

/-- Counterexample to C6 as stated: a concrete decision/context whose
unrounded total is 0.7975, so `overall` rounds up to exactly 0.8 while
`level` is `medium` — contradicting "level is high iff overall ≥ 0.8". -/
theorem c6_counterexample :
    (calculateConfidenceScore c6Dec c6Ctx).overall = mkRat 4 5 ∧
    mkRat 4 5 ≤ (calculateConfidenceScore c6Dec c6Ctx).overall ∧
    (calculateConfidenceScore c6Dec c6Ctx).level = "medium" ∧
    "medium" ≠ "high" := by decide

/-! ### DUMP-phase response generation (C1) -/

/-- One unfolding of the worker for a retry-capable attempt (`remaining =
r + 1`) under a no-throw oracle, in the DUMP phase. -/
theorem genAux_dump_pure_succ (f : List Msg → String) (r : Nat) (history : List Msg)
    (attempt : Nat) :
    genAux (pureOracle f) ("DUMP") (r + 1) history attempt =
      (if dumpFailsCheck (attemptContent f history) then
        (genAux (pureOracle f) ("DUMP") r (history ++ [reminderMsg]) (attempt + 1)).map
          (fun p => (p.1, p.2 + 1))
      else .ok (⟨attemptContent f history, true, decide (attempt > 1), []⟩, 1)) := rfl

/-- One unfolding of the worker for the final attempt (`remaining = 0`). -/
theorem genAux_dump_pure_zero (f : List Msg → String) (history : List Msg)
    (attempt : Nat) :
    genAux (pureOracle f) ("DUMP") 0 history attempt =
      (if dumpFailsCheck (attemptContent f history) then
        .ok (⟨attemptContent f history, false, decide (attempt > 1),
          (checkDumpPhaseViolations (attemptContent f history)).violations⟩, 1)
      else .ok (⟨attemptContent f history, true, decide (attempt > 1), []⟩, 1)) := rfl

theorem qmEndOfLine_append_qm (l : List Char) : qmEndOfLine (l ++ ['?']) = true := by
  induction l with
  | nil => rfl
  | cons c cs ih => simp [qmEndOfLine, ih]

/-- A trimmed reply that ends in `?` fires the `questions` category, hence
fails the DUMP check. -/
theorem dumpFails_of_endsWith_qm (c : String) (h : jsEndsWith c ("?") = true) :
    dumpFailsCheck c = true := by
  have hq : qmEndOfLine c.data = true := by
    rw [jsEndsWith, decide_eq_true_iff] at h
    obtain ⟨pre, hpre⟩ := h
    rw [← hpre]
    exact qmEndOfLine_append_qm pre
  have hqh : dumpQuestionsHit c = true := by
    unfold dumpQuestionsHit
    rw [hq, Bool.true_or]
  have hv : (checkDumpPhaseViolations c).hasViolations = true := by
    simp [checkDumpPhaseViolations, hqh]
  unfold dumpFailsCheck
  rw [hv, Bool.true_or]

theorem hasViolations_eq_not_isEmpty (c : String) :
    (checkDumpPhaseViolations c).hasViolations =
      !(checkDumpPhaseViolations c).violations.isEmpty := rfl

theorem violations_ne_nil_of_hasViolations (c : String)
    (h : (checkDumpPhaseViolations c).hasViolations = true) :
    (checkDumpPhaseViolations c).violations ≠ [] := by
  intro hnil
  rw [hasViolations_eq_not_isEmpty, hnil] at h
  simp at h

/-- C1 (amended): with any no-throw LLM oracle, the DUMP-phase protocol run
from attempt 1 makes at most 3 calls; `regenerated` holds exactly when more
than one call was made; a first reply ending in `?` forces at least one
regeneration, continuing precisely on the history with the corrective
reminder appended; if all three attempts fail the check, the result carries
the last content, `validationPassed = false`, and the forbidden-content
checker's violations for that content — non-empty whenever a
forbidden-content category fired (but empty when only the length check
failed); and a validated result passes the check with no violations
recorded. -/
theorem c1_dump_regeneration_protocol (f : List Msg → String) (history : List Msg)
    (r : GenResult) (n : Nat)
    (h : generatePhaseResponse (pureOracle f) ("DUMP") history 1 = .ok (r, n)) :
    n ≤ 3 ∧
    (r.regenerated = true ↔ 1 < n) ∧
    (jsEndsWith (attemptContent f history) ("?") = true →
      2 ≤ n ∧
      generatePhaseResponse (pureOracle f) ("DUMP") (history ++ [reminderMsg]) 2 =
        .ok (r, n - 1)) ∧
    ((dumpFailsCheck (attemptContent f history) = true ∧
      dumpFailsCheck (attemptContent f (history ++ [reminderMsg])) = true ∧
      dumpFailsCheck (attemptContent f (history ++ [reminderMsg] ++ [reminderMsg])) = true) →
      r.validationPassed = false ∧ n = 3 ∧
      r.content = attemptContent f (history ++ [reminderMsg] ++ [reminderMsg]) ∧
      r.violations = (checkDumpPhaseViolations r.content).violations ∧
      ((checkDumpPhaseViolations r.content).hasViolations = true → r.violations ≠ [])) ∧
    (r.validationPassed = true → dumpFailsCheck r.content = false ∧ r.violations = []) := by
  replace h : genAux (pureOracle f) ("DUMP") 2 history 1 = .ok (r, n) := h
  rw [genAux_dump_pure_succ] at h
  cases hb1 : dumpFailsCheck (attemptContent f history)
  · -- first attempt passes: one call
    rw [hb1] at h
    simp only [Bool.false_eq_true, if_false, Except.ok.injEq, Prod.mk.injEq] at h
    obtain ⟨hr, hn⟩ := h
    subst hr
    subst hn
    refine ⟨by omega, by simp, ?_, ?_, fun _ => ⟨hb1, rfl⟩⟩
    · intro hq
      exact (Bool.false_ne_true (hb1.symm.trans (dumpFails_of_endsWith_qm _ hq))).elim
    · rintro ⟨ha, -, -⟩
      exact (Bool.false_ne_true ha).elim
  · -- first attempt fails: regenerate
    rw [hb1] at h
    simp only [if_true] at h
    rw [genAux_dump_pure_succ] at h
    have hgen2eq : generatePhaseResponse (pureOracle f) ("DUMP") (history ++ [reminderMsg]) 2 =
        genAux (pureOracle f) ("DUMP") 1 (history ++ [reminderMsg]) 2 := rfl
    cases hb2 : dumpFailsCheck (attemptContent f (history ++ [reminderMsg]))
    · -- second attempt passes: two calls
      rw [hb2] at h
      simp only [Bool.false_eq_true, if_false, Except.map, Except.ok.injEq,
        Prod.mk.injEq] at h
      obtain ⟨hr, hn⟩ := h
      subst hr
      subst hn
      refine ⟨by omega, by simp, ?_, ?_, fun _ => ⟨hb2, rfl⟩⟩
      · intro _
        refine ⟨by omega, ?_⟩
        rw [hgen2eq, genAux_dump_pure_succ, hb2]
        simp
      · rintro ⟨-, hb, -⟩
        exact (Bool.false_ne_true hb).elim
    · -- second attempt fails: third and final attempt
      rw [hb2] at h
      simp only [if_true] at h
      rw [genAux_dump_pure_zero] at h
      cases hb3 : dumpFailsCheck (attemptContent f (history ++ [reminderMsg] ++ [reminderMsg]))
      · -- third attempt passes: three calls, validated
        rw [hb3] at h
        simp only [Bool.false_eq_true, if_false, Except.map, Except.ok.injEq,
          Prod.mk.injEq] at h
        obtain ⟨hr, hn⟩ := h
        subst hr
        subst hn
        refine ⟨by omega, by simp, ?_, ?_, fun _ => ⟨hb3, rfl⟩⟩
        · intro _
          refine ⟨by omega, ?_⟩
          rw [hgen2eq, genAux_dump_pure_succ, hb2]
          simp only [if_true]
          rw [genAux_dump_pure_zero, hb3]
          simp [Except.map]
        · rintro ⟨-, -, hb⟩
          exact (Bool.false_ne_true hb).elim
      · -- all three attempts fail: unvalidated result with the last content
        rw [hb3] at h
        simp only [if_true, Except.map, Except.ok.injEq, Prod.mk.injEq] at h
        obtain ⟨hr, hn⟩ := h
        subst hr
        subst hn
        refine ⟨by omega, by simp, ?_, ?_, ?_⟩
        · intro _
          refine ⟨by omega, ?_⟩
          rw [hgen2eq, genAux_dump_pure_succ, hb2]
          simp only [if_true]
          rw [genAux_dump_pure_zero, hb3]
          simp [Except.map]
        · rintro ⟨-, -, -⟩
          exact ⟨rfl, rfl, rfl, rfl, fun hv => violations_ne_nil_of_hasViolations _ hv⟩
        · intro hvp
          cases hvp

/-- Witness for C1 (amended): a compliant one-call run through the theorem. -/
theorem c1_dump_regeneration_protocol_witness :
    (1 : Nat) ≤ 3 ∧
    ((⟨"That sounds heavy.", true, false, []⟩ : GenResult).regenerated = true ↔ 1 < 1) ∧
    (jsEndsWith (attemptContent (fun _ => "That sounds heavy.") []) "?" = true →
      2 ≤ 1 ∧
      generatePhaseResponse (pureOracle (fun _ => "That sounds heavy.")) ("DUMP")
        ([] ++ [reminderMsg]) 2 = .ok (⟨"That sounds heavy.", true, false, []⟩, 1 - 1)) ∧
    ((dumpFailsCheck (attemptContent (fun _ => "That sounds heavy.") []) = true ∧
      dumpFailsCheck (attemptContent (fun _ => "That sounds heavy.") ([] ++ [reminderMsg])) = true ∧
      dumpFailsCheck (attemptContent (fun _ => "That sounds heavy.")
        ([] ++ [reminderMsg] ++ [reminderMsg])) = true) →
      (⟨"That sounds heavy.", true, false, []⟩ : GenResult).validationPassed = false ∧
      (1 : Nat) = 3 ∧
      (⟨"That sounds heavy.", true, false, []⟩ : GenResult).content =
        attemptContent (fun _ => "That sounds heavy.") ([] ++ [reminderMsg] ++ [reminderMsg]) ∧
      (⟨"That sounds heavy.", true, false, []⟩ : GenResult).violations =
        (checkDumpPhaseViolations
          (⟨"That sounds heavy.", true, false, []⟩ : GenResult).content).violations ∧
      ((checkDumpPhaseViolations
          (⟨"That sounds heavy.", true, false, []⟩ : GenResult).content).hasViolations = true →
        (⟨"That sounds heavy.", true, false, []⟩ : GenResult).violations ≠ [])) ∧
    ((⟨"That sounds heavy.", true, false, []⟩ : GenResult).validationPassed = true →
      dumpFailsCheck (⟨"That sounds heavy.", true, false, []⟩ : GenResult).content = false ∧
      (⟨"That sounds heavy.", true, false, []⟩ : GenResult).violations = []) :=
  c1_dump_regeneration_protocol (fun _ => "That sounds heavy.") []
    ⟨"That sounds heavy.", true, false, []⟩ 1 rfl

/-- Counterexample to C1 as stated: a benign 7-line reply fails only the
length check on all three attempts, so the final result has
`validationPassed = false` but an *empty* violations list. -/
theorem c1_counterexample :
    generatePhaseResponse (pureOracle (fun _ => c1Benign7)) ("DUMP") [] 1 =
      .ok (⟨c1Benign7, false, true, []⟩, 3) ∧
    (checkResponseLength c1Benign7).isValid = false ∧
    (checkDumpPhaseViolations c1Benign7).hasViolations = false :=
  ⟨rfl, by decide, by decide⟩

end AICompanion
